import Mathlib

/-! # Deck engine (`model/deck.go`)

A shallow embedding of the deck model of the repository: the card catalog,
`Deck.Create`, `Deck.Draw`, `Deck.Shuffle` and the persistence hooks
`Deck.BeforeSave` / `Deck.AfterFind`.

Conventions of the embedding.

* A Go `string` is its byte sequence (`GoString`), so that `len` and the slice
  expressions `code[0:1]` count bytes exactly as Go does.
* A Go slice `[]T` is a `List T`.
* A method with a pointer receiver returns the receiver's state after the call
  together with what the call returned; a run-time panic is an explicit
  outcome (`Exec.panic`), and the receiver's state is then the state at the
  moment of the panic.
* `int` values that can be negative (`count`, `Remaining`) are `Int`.
-/

namespace DeckModel

/-- A Go `string`, as its sequence of bytes; a byte is a natural number below 256. A
`[]byte` value is a `List Nat` in the same way. -/
abbrev GoString := List Nat

/-- The bytes of a string literal of the source (all of them are ASCII). -/
def lit (s : String) : GoString := s.toList.map Char.toNat

/-- Outcome of running a Go function: it returns, or it panics. -/
inductive Exec (α : Type) where
  | ret (a : α)
  | panic (msg : String)
  deriving Repr, DecidableEq

/-- The Go slice expression `s[lo:hi]`: a run-time panic (`none`) unless
`0 ≤ lo ≤ hi ≤ len(s)`. For a slice Go admits `hi` up to the capacity; the
engine never asks for more than the length without `lo` being out of range
first. -/
def goSlice {α : Type} (s : List α) (lo hi : Int) : Option (List α) :=
  if 0 ≤ lo ∧ lo ≤ hi ∧ hi ≤ (s.length : Int) then
    some ((s.drop lo.toNat).take (hi.toNat - lo.toNat))
  else
    none

/-- Indexing a `map[string]string`: the zero value `""` when the key is absent. -/
def mapGet (m : List (GoString × GoString)) (k : GoString) : GoString :=
  (m.lookup k).getD []

/-- The struct `Card`. -/
structure Card where
  Value : GoString
  Suit : GoString
  Code : GoString
  CardType : GoString
  deriving Repr, DecidableEq

/-- The embedded `gorm.Model`; the engine never reads or writes it. Time stamps
are carried as plain integers. -/
structure GormModel where
  ID : Nat := 0
  CreatedAt : Int := 0
  UpdatedAt : Int := 0
  DeletedAt : Option Int := none
  deriving Repr, DecidableEq

/-- The struct `Deck`. -/
structure Deck where
  Model : GormModel
  ID : GoString
  Shuffled : Bool
  Remaining : Int
  CardsJSON : List Nat
  Cards : List Card
  deriving Repr, DecidableEq

/-- The zero value `Deck{}`. -/
def Deck.zero : Deck :=
  { Model := {}, ID := [], Shuffled := false, Remaining := 0, CardsJSON := [], Cards := [] }

/-- The value `maxCards["FRENCH"]`. -/
def maxCardsFrench : Int := 52

/-- The value `minCards["FRENCH"]`. -/
def minCardsFrench : Int := 1

/-- The table `valueNames`. -/
def valueNames : List (GoString × GoString) :=
  [ (lit "A", lit "ACE"), (lit "2", lit "2"), (lit "3", lit "3"), (lit "4", lit "4"),
    (lit "5", lit "5"), (lit "6", lit "6"), (lit "7", lit "7"), (lit "8", lit "8"),
    (lit "9", lit "9"), (lit "10", lit "10"), (lit "J", lit "JACK"),
    (lit "Q", lit "QUEEN"), (lit "K", lit "KING") ]

/-- The table `suitNames`. -/
def suitNames : List (GoString × GoString) :=
  [ (lit "C", lit "CLUBS"), (lit "D", lit "DIAMONDS"), (lit "H", lit "HEARTS"),
    (lit "S", lit "SPADES") ]

/-- The two slice expressions at the head of the loop body of `Create`: the
rank token and the suit token of a code, or `none` when a slice expression is
out of range. -/
def splitCode (code : GoString) : Option (GoString × GoString) :=
  if (code.length : Int) ≤ 2 then
    match goSlice code 0 1 with
    | none => none
    | some value =>
      match goSlice code 1 2 with
      | none => none
      | some suit => some (value, suit)
  else
    match goSlice code 0 2 with
    | none => none
    | some value =>
      match goSlice code 2 3 with
      | none => none
      | some suit => some (value, suit)

/-- The body of the loop of `Create` for one code: the card appended to the deck. -/
def makeCard (code : GoString) : Exec Card :=
  match splitCode code with
  | none => .panic "slice bounds out of range"
  | some (value, suit) =>
    .ret { Code := code, Suit := mapGet suitNames suit, Value := mapGet valueNames value,
           CardType := lit "FRENCH" }

/-- The loop `for _, code := range cardCodes` of `Create`, started with the
cards appended so far. -/
def createLoop : List GoString → List Card → Exec (List Card)
  | [], acc => .ret acc
  | code :: rest, acc =>
    match makeCard code with
    | .panic msg => .panic msg
    | .ret card => createLoop rest (acc ++ [card])

/-- The method `Deck.Create`. The receiver is not used by the source. `newID` is the
string that `uuid.New().String()` produces for this call. Returns the pair
`(Deck, error)`, the error being `none` for `nil`. -/
def Create (newID : GoString) (cardCodes : List GoString) : Exec (Deck × Option String) :=
  if (cardCodes.length : Int) < minCardsFrench then
    .ret (Deck.zero, some "too few cards provided")
  else if (cardCodes.length : Int) > maxCardsFrench then
    .ret (Deck.zero, some "too many cards provided")
  else
    match createLoop cardCodes [] with
    | .panic msg => .panic msg
    | .ret cards =>
      .ret ({ Deck.zero with ID := newID, Cards := cards, Remaining := (cards.length : Int) },
            none)

/-- The method `Deck.Draw`: the deck after the call, and the pair `([]Card, error)`
it returned or the panic it raised. The subtraction `len(d.Cards)-count` is
taken over the integers: when it would leave the range of `int` the exact
value already lies outside `0..len(d.Cards)`, and both the exact and the
wrapped value make the slice expression panic. -/
def Draw (d : Deck) (count : Int) : Deck × Exec (List Card × Option String) :=
  if count > d.Remaining then
    (d, .ret ([], some "too many cards requested"))
  else
    match goSlice d.Cards ((d.Cards.length : Int) - count) (d.Cards.length : Int) with
    | none => (d, .panic "slice bounds out of range")
    | some drawnCards =>
      match goSlice d.Cards 0 ((d.Cards.length : Int) - count) with
      | none => (d, .panic "slice bounds out of range")
      | some cards =>
        ({ d with Cards := cards, Remaining := (cards.length : Int) }, .ret (drawnCards, none))

/-- The callback given to `rand.Shuffle`:
`d.Cards[i], d.Cards[j] = d.Cards[j], d.Cards[i]`. Both indices are in range
whenever the shuffle loop calls it. -/
def swapCards (cs : List Card) (i j : Nat) : List Card :=
  match cs[i]?, cs[j]? with
  | some a, some b => (cs.set i b).set j a
  | _, _ => cs

/-- The loop of `rand.Shuffle` (Fisher-Yates): for `i` from `n-1` down to `1`,
swap positions `i` and `j` with `j` drawn from `0..i`. `pick i` is the raw
number the random source delivers at step `i`. -/
def shuffleLoop (pick : Nat → Nat) : Nat → List Card → List Card
  | 0, cs => cs
  | i + 1, cs => shuffleLoop pick i (swapCards cs (i + 1) (pick (i + 1) % (i + 2)))

/-- The method `Deck.Shuffle`, for a given outcome `pick` of the random source
seeded from the clock. -/
def Shuffle (pick : Nat → Nat) (d : Deck) : Deck :=
  { d with Cards := shuffleLoop pick (d.Cards.length - 1) d.Cards, Shuffled := true }

/-! ## `encoding/json` as used by the persistence hooks

`BeforeSave` calls `json.Marshal(d.Cards)` and `AfterFind` calls
`json.Unmarshal(d.CardsJSON, &d.Cards)`. The library is modelled at the level
of bytes: the encoder writes the compact text Go writes for a `[]Card`, the
decoder parses a JSON text and stores it into a `[]Card` by Go's rules. -/

/-- The table `acceptRanges` of the package `utf8`, lower bounds: the least second byte
that may follow the first byte `b0`. -/
def acceptLo (b0 : Nat) : Nat := if b0 = 0xE0 then 0xA0 else if b0 = 0xF0 then 0x90 else 0x80

/-- The table `acceptRanges` of the package `utf8`, upper bounds: the greatest second byte
that may follow the first byte `b0`. -/
def acceptHi (b0 : Nat) : Nat := if b0 = 0xED then 0x9F else if b0 = 0xF4 then 0x8F else 0xBF

/-- The function `utf8.DecodeRuneInString` on the head of a byte sequence: the
rune and its width, `(0xFFFD, 1)` for an invalid or truncated encoding. -/
def decodeRune : List Nat → Nat × Nat
  | [] => (0xFFFD, 0)
  | b0 :: rest =>
    if b0 < 0x80 then (b0, 1)
    else if 0xC2 ≤ b0 ∧ b0 ≤ 0xDF then
      match rest with
      | b1 :: _ =>
        if 0x80 ≤ b1 ∧ b1 ≤ 0xBF then ((b0 % 32) * 64 + b1 % 64, 2) else (0xFFFD, 1)
      | _ => (0xFFFD, 1)
    else if 0xE0 ≤ b0 ∧ b0 ≤ 0xEF then
      match rest with
      | b1 :: b2 :: _ =>
        if acceptLo b0 ≤ b1 ∧ b1 ≤ acceptHi b0 ∧ 0x80 ≤ b2 ∧ b2 ≤ 0xBF then
          ((b0 % 16) * 4096 + (b1 % 64) * 64 + b2 % 64, 3)
        else (0xFFFD, 1)
      | _ => (0xFFFD, 1)
    else if 0xF0 ≤ b0 ∧ b0 ≤ 0xF4 then
      match rest with
      | b1 :: b2 :: b3 :: _ =>
        if acceptLo b0 ≤ b1 ∧ b1 ≤ acceptHi b0 ∧ 0x80 ≤ b2 ∧ b2 ≤ 0xBF
            ∧ 0x80 ≤ b3 ∧ b3 ≤ 0xBF then
          ((b0 % 8) * 262144 + (b1 % 64) * 4096 + (b2 % 64) * 64 + b3 % 64, 4)
        else (0xFFFD, 1)
      | _ => (0xFFFD, 1)
    else (0xFFFD, 1)

/-- The function `utf8.AppendRune`: the UTF-8 encoding of a rune, that of U+FFFD for a
surrogate or a value past U+10FFFF. -/
def encodeRune (r : Nat) : List Nat :=
  if r < 0x80 then [r]
  else if r < 0x800 then [0xC0 + r / 64, 0x80 + r % 64]
  else if (0xD800 ≤ r ∧ r ≤ 0xDFFF) ∨ 0x10FFFF < r then [0xEF, 0xBF, 0xBD]
  else if r < 0x10000 then [0xE0 + r / 4096, 0x80 + (r / 64) % 64, 0x80 + r % 64]
  else [0xF0 + r / 262144, 0x80 + (r / 4096) % 64, 0x80 + (r / 64) % 64, 0x80 + r % 64]

/-- The table `hex` of the encoder: the lower-case hexadecimal digit of `n < 16`. -/
def hexDigit (n : Nat) : Nat := if n < 10 then 48 + n else 87 + n

/-- The table `htmlSafeSet` of the encoder: the ASCII bytes written as they are,
namely those from the space on except `"`, `&`, `<`, `>` and `\`. -/
def htmlSafe (b : Nat) : Bool :=
  decide (32 ≤ b ∧ b < 128 ∧ b ≠ 34 ∧ b ≠ 38 ∧ b ≠ 60 ∧ b ≠ 62 ∧ b ≠ 92)

/-- What the encoder writes for an ASCII byte that is not in `htmlSafeSet`. Releases
from Go 1.22 on write the bytes 8 and 12 as `\b` and `\f` instead of `\u0008`
and `\u000c`; the decoder reads both forms alike. -/
def escapeByte (b : Nat) : List Nat :=
  if b = 92 ∨ b = 34 then [92, b]
  else if b = 10 then [92, 110]
  else if b = 13 then [92, 114]
  else if b = 9 then [92, 116]
  else [92, 117, 48, 48, hexDigit (b / 16), hexDigit (b % 16)]

/-- The loop of the encoder over the bytes of a string, between the two quotes.
The first argument counts the bytes still to step over, the rest of a rune that
has been written already. -/
def encodeStringBody : Nat → List Nat → List Nat
  | _, [] => []
  | k + 1, _ :: rest => encodeStringBody k rest
  | 0, b :: rest =>
    if b < 128 then
      (if htmlSafe b then [b] else escapeByte b) ++ encodeStringBody 0 rest
    else
      match decodeRune (b :: rest) with
      | (c, size) =>
        if c = 0xFFFD ∧ size = 1 then
          [92, 117, 102, 102, 102, 100] ++ encodeStringBody 0 rest
        else if c = 0x2028 ∨ c = 0x2029 then
          [92, 117, 50, 48, 50, hexDigit (c % 16)] ++ encodeStringBody (size - 1) rest
        else
          (b :: rest).take size ++ encodeStringBody (size - 1) rest

/-- The encoder on a Go string: a JSON string literal. -/
def encodeString (s : GoString) : List Nat :=
  [34] ++ encodeStringBody 0 s ++ [34]

/-- The fields of the struct `Card` with their `json` tags, in the order of the
declaration. -/
def cardTags : List (GoString × (Card → GoString)) :=
  [ (lit "value", Card.Value), (lit "suit", Card.Suit), (lit "code", Card.Code),
    (lit "-", Card.CardType) ]

/-- The fields the encoder and the decoder see: the tag `-` leaves a field out. -/
def cardFields : List (GoString × (Card → GoString)) :=
  cardTags.filter fun f => f.1 ≠ lit "-"

/-- The texts of a list, with a comma between neighbours. -/
def joinComma : List (List Nat) → List Nat
  | [] => []
  | [x] => x
  | x :: y :: rest => x ++ 44 :: joinComma (y :: rest)

/-- The text of one member of an object: the key, a colon, the string value. -/
def encodeMember (m : GoString × GoString) : List Nat :=
  encodeString m.1 ++ [58] ++ encodeString m.2

/-- The encoder on a `Card`: an object with one member for each field of `cardFields`. -/
def encodeCard (c : Card) : List Nat :=
  [123] ++ joinComma (cardFields.map fun f => encodeMember (f.1, f.2 c)) ++ [125]

/-- The function `json.Marshal` on a `[]Card`: an array with one element for each card. No
card makes the encoder fail. `BeforeSave` calls it on a sequence that holds a
card; of an empty sequence Go writes `null` when the slice is nil and `[]`
otherwise, which a list does not tell apart, and the model writes `[]`. -/
def jsonMarshal (cards : List Card) : Except String (List Nat) :=
  .ok ([91] ++ joinComma (cards.map encodeCard) ++ [93])

/-- The hook `Deck.BeforeSave`: the deck after the call and the error returned. -/
def BeforeSave (d : Deck) : Deck × Option String :=
  if d.Cards.length > 0 then
    match jsonMarshal d.Cards with
    | .ok bytes => ({ d with CardsJSON := bytes }, none)
    | .error err => ({ d with CardsJSON := [] }, some err)
  else
    (d, none)

/-- A JSON value, as the decoder reads it from a text. A number keeps its text. -/
inductive Json where
  | null
  | bool (b : Bool)
  | num (text : List Nat)
  | str (s : GoString)
  | arr (elems : List Json)
  | obj (members : List (GoString × Json))

/-- Steps over the white space of a JSON text: space, tab, carriage return, line feed. -/
def skipSpace : List Nat → List Nat
  | [] => []
  | b :: rest => if b = 32 ∨ b = 9 ∨ b = 13 ∨ b = 10 then skipSpace rest else b :: rest

/-- The value of a hexadecimal digit, in either case. -/
def hexValue (b : Nat) : Option Nat :=
  if 48 ≤ b ∧ b ≤ 57 then some (b - 48)
  else if 97 ≤ b ∧ b ≤ 102 then some (b - 87)
  else if 65 ≤ b ∧ b ≤ 70 then some (b - 55)
  else none

/-- The number that four hexadecimal digits at the head of the input write. -/
def hex4 : List Nat → Option Nat
  | h1 :: h2 :: h3 :: h4 :: _ =>
    match hexValue h1, hexValue h2, hexValue h3, hexValue h4 with
    | some a, some b, some c, some d => some (a * 4096 + b * 256 + c * 16 + d)
    | _, _, _, _ => none
  | _ => none

/-- The function `getu4` of the decoder: the number written by `\uXXXX` at the head of the
input. -/
def getu4 : List Nat → Option Nat
  | b :: u :: rest => if b = 92 ∧ u = 117 then hex4 rest else none
  | _ => none

/-- An escape sequence of a string literal, the input starting after the
backslash: the bytes it stands for and the number of input bytes it takes. -/
def unquoteEscape : List Nat → Option (List Nat × Nat)
  | [] => none
  | c :: rest =>
    if c = 34 ∨ c = 92 ∨ c = 47 then some ([c], 1)
    else if c = 98 then some ([8], 1)
    else if c = 102 then some ([12], 1)
    else if c = 110 then some ([10], 1)
    else if c = 114 then some ([13], 1)
    else if c = 116 then some ([9], 1)
    else if c = 117 then
      match hex4 rest with
      | none => none
      | some rr =>
        if 0xD800 ≤ rr ∧ rr < 0xE000 then
          match getu4 (rest.drop 4) with
          | some rr1 =>
            if rr < 0xDC00 ∧ 0xDC00 ≤ rr1 ∧ rr1 < 0xE000 then
              some (encodeRune ((rr - 0xD800) * 1024 + (rr1 - 0xDC00) + 0x10000), 11)
            else some ([0xEF, 0xBF, 0xBD], 5)
          | none => some ([0xEF, 0xBF, 0xBD], 5)
        else some (encodeRune rr, 5)
    else none

/-- A string literal, the input starting after the opening quote: the Go string it
stands for (`unquote`) and the input after the closing quote; `none` when the
scanner rejects the literal. The first argument counts the bytes still to step
over, the rest of an escape sequence or of a rune read already. -/
def unquoteBody : Nat → List Nat → Option (GoString × List Nat)
  | _, [] => none
  | k + 1, _ :: rest => unquoteBody k rest
  | 0, b :: rest =>
    if b = 34 then some ([], rest)
    else if b = 92 then
      match unquoteEscape rest with
      | none => none
      | some (out, k) =>
        match unquoteBody k rest with
        | none => none
        | some (s, after) => some (out ++ s, after)
    else if b < 32 then none
    else if b < 128 then
      match unquoteBody 0 rest with
      | none => none
      | some (s, after) => some (b :: s, after)
    else
      match decodeRune (b :: rest) with
      | (c, size) =>
        match unquoteBody (size - 1) rest with
        | none => none
        | some (s, after) => some (encodeRune c ++ s, after)

/-- The digits at the head of the input, and the input after them. -/
def spanDigits : List Nat → List Nat × List Nat
  | [] => ([], [])
  | b :: rest =>
    if 48 ≤ b ∧ b ≤ 57 then
      match spanDigits rest with
      | (ds, after) => (b :: ds, after)
    else ([], b :: rest)

/-- The exponent of a number, when the input starts with one. -/
def parseExponent (inp : List Nat) : Option (List Nat × List Nat) :=
  match inp with
  | e :: rest =>
    if e = 101 ∨ e = 69 then
      match rest with
      | s :: rest2 =>
        if s = 43 ∨ s = 45 then
          match spanDigits rest2 with
          | ([], _) => none
          | (ds, after) => some (e :: s :: ds, after)
        else
          match spanDigits rest with
          | ([], _) => none
          | (ds, after) => some (e :: ds, after)
      | [] => none
    else some ([], inp)
  | [] => some ([], inp)

/-- The fraction of a number, when the input starts with one. -/
def parseFraction (inp : List Nat) : Option (List Nat × List Nat) :=
  match inp with
  | p :: rest =>
    if p = 46 then
      match spanDigits rest with
      | ([], _) => none
      | (ds, after) => some (p :: ds, after)
    else some ([], inp)
  | [] => some ([], inp)

/-- The digits of a number before the fraction: a single `0`, or digits that do not
start with `0`. -/
def parseInteger (inp : List Nat) : Option (List Nat × List Nat) :=
  match spanDigits inp with
  | ([], _) => none
  | (d :: ds, after) => if d = 48 ∧ ds ≠ [] then none else some (d :: ds, after)

/-- A number literal: its text and the input after it. -/
def parseNumber (inp : List Nat) : Option (List Nat × List Nat) :=
  match inp with
  | [] => none
  | s :: rest =>
    match parseInteger (if s = 45 then rest else inp) with
    | none => none
    | some (ds, r1) =>
      match parseFraction r1 with
      | none => none
      | some (fs, r2) =>
        match parseExponent r2 with
        | none => none
        | some (es, r3) => some ((if s = 45 then [45] else []) ++ ds ++ fs ++ es, r3)

/-- The input after the prefix `p`, when the input starts with `p`. -/
def dropPrefix : List Nat → List Nat → Option (List Nat)
  | [], inp => some inp
  | _ :: _, [] => none
  | p :: ps, b :: rest => if p = b then dropPrefix ps rest else none

mutual

/-- A JSON value at the head of the input, white space before it allowed: the value
and the input after it. The first argument bounds the number of nested calls. -/
def parseValue : Nat → List Nat → Option (Json × List Nat)
  | 0, _ => none
  | fuel + 1, inp =>
    match skipSpace inp with
    | [] => none
    | b :: rest =>
      if b = 123 then
        match skipSpace rest with
        | [] => none
        | c :: rest2 =>
          if c = 125 then some (.obj [], rest2) else parseMembers fuel (c :: rest2) []
      else if b = 91 then
        match skipSpace rest with
        | [] => none
        | c :: rest2 =>
          if c = 93 then some (.arr [], rest2) else parseElems fuel (c :: rest2) []
      else if b = 34 then
        match unquoteBody 0 rest with
        | none => none
        | some (s, after) => some (.str s, after)
      else if b = 45 ∨ (48 ≤ b ∧ b ≤ 57) then
        match parseNumber (b :: rest) with
        | none => none
        | some (text, after) => some (.num text, after)
      else if b = 116 then
        match dropPrefix [114, 117, 101] rest with
        | none => none
        | some after => some (.bool true, after)
      else if b = 102 then
        match dropPrefix [97, 108, 115, 101] rest with
        | none => none
        | some after => some (.bool false, after)
      else if b = 110 then
        match dropPrefix [117, 108, 108] rest with
        | none => none
        | some after => some (.null, after)
      else none

/-- The elements of an array after the opening bracket, up to the closing one;
`acc` holds the elements read so far. -/
def parseElems : Nat → List Nat → List Json → Option (Json × List Nat)
  | 0, _, _ => none
  | fuel + 1, inp, acc =>
    match parseValue fuel inp with
    | none => none
    | some (v, rest) =>
      match skipSpace rest with
      | [] => none
      | c :: rest2 =>
        if c = 44 then parseElems fuel rest2 (acc ++ [v])
        else if c = 93 then some (.arr (acc ++ [v]), rest2)
        else none

/-- The members of an object after the opening brace, up to the closing one;
`acc` holds the members read so far. -/
def parseMembers : Nat → List Nat → List (GoString × Json) → Option (Json × List Nat)
  | 0, _, _ => none
  | fuel + 1, inp, acc =>
    match skipSpace inp with
    | [] => none
    | q :: rest =>
      if q = 34 then
        match unquoteBody 0 rest with
        | none => none
        | some (key, rest2) =>
          match skipSpace rest2 with
          | [] => none
          | c :: rest3 =>
            if c = 58 then
              match parseValue fuel rest3 with
              | none => none
              | some (v, rest4) =>
                match skipSpace rest4 with
                | [] => none
                | e :: rest5 =>
                  if e = 44 then parseMembers fuel rest5 (acc ++ [(key, v)])
                  else if e = 125 then some (.obj (acc ++ [(key, v)]), rest5)
                  else none
            else none
      else none

end

/-- A whole JSON text (`checkValid` and the scan of the value): one value, white space
around it allowed, nothing after it. The bound on nested calls is twice the
length of the text, which no text exhausts; the limit the library puts on
the nesting depth is not modelled. -/
def parseJson (data : List Nat) : Option Json :=
  match parseValue (2 * data.length + 2) data with
  | none => none
  | some (v, rest) => if skipSpace rest = [] then some v else none

/-- The zero value `Card{}`. -/
def Card.zero : Card := { Value := [], Suit := [], Code := [], CardType := [] }

/-- Stores a string into the field of a card that carries the given `json` tag. -/
def setField (c : Card) (tag : GoString) (v : GoString) : Card :=
  if tag = lit "value" then { c with Value := v }
  else if tag = lit "suit" then { c with Suit := v }
  else if tag = lit "code" then { c with Code := v }
  else c

/-- The case folding under which the decoder compares a key with a field name: the
ASCII letters in upper case, and the two letters outside ASCII that fold to
`S` (U+017F) and to `K` (U+212A). -/
def foldKey : Nat → List Nat → List Nat
  | _, [] => []
  | k + 1, _ :: rest => foldKey k rest
  | 0, b :: rest =>
    if 97 ≤ b ∧ b ≤ 122 then (b - 32) :: foldKey 0 rest
    else if b = 0xC5 ∧ rest.take 1 = [0xBF] then 83 :: foldKey 1 rest
    else if b = 0xE2 ∧ rest.take 2 = [0x84, 0xAA] then 75 :: foldKey 2 rest
    else b :: foldKey 0 rest

/-- The field a key of an object selects: the field whose name is the key, else the first
field whose name equals the key under case folding. -/
def findField (key : GoString) : Option GoString :=
  match (cardFields.map Prod.fst).find? fun name => name = key with
  | some name => some name
  | none => (cardFields.map Prod.fst).find? fun name => foldKey 0 name = foldKey 0 key

/-- The error of the decoder for a value that does not fit the Go type
(`UnmarshalTypeError`), its text abridged. -/
def typeError : String := "json: cannot unmarshal value into Go value"

/-- The error of the decoder for a text that is not valid JSON (`SyntaxError`), its
text abridged. -/
def syntaxError : String := "json: syntax error"

/-- The decoder storing one member of an object into a card: a string sets the field
the key selects, `null` and an unknown key change nothing, any other value is
a type error and the decoding goes on. The first error is kept. -/
def decodeMember (st : Card × Option String) (m : GoString × Json) : Card × Option String :=
  match findField m.1 with
  | none => st
  | some tag =>
    match m.2 with
    | .str s => (setField st.1 tag s, st.2)
    | .null => st
    | _ => (st.1, st.2.orElse fun _ => some typeError)

/-- The decoder storing a JSON value into the card `target`: the members of an object
in their order, nothing for `null`, a type error for any other value. -/
def decodeCard (j : Json) (target : Card) : Card × Option String :=
  match j with
  | .obj members => members.foldl decodeMember (target, none)
  | .null => (target, none)
  | _ => (target, some typeError)

/-- The decoder storing the elements of an array into a slice of cards: element `i`
is stored into the card the slice holds at `i`, into a zero card past its end.
The first error is kept. A list has no spare capacity: cards that Go would find
between the length and the capacity of the slice are not modelled. -/
def decodeElems : List Json → List Card → List Card × Option String
  | [], _ => ([], none)
  | j :: js, old =>
    match decodeCard j (old.headD Card.zero), decodeElems js old.tail with
    | (c, e1), (cs, e2) => (c :: cs, e1.orElse fun _ => e2)

/-- The function `json.Unmarshal(data, &cards)`: the slice after the call and the error
returned. A text that is not valid JSON leaves the slice as it was. -/
def jsonUnmarshal (data : List Nat) (cards : List Card) : List Card × Option String :=
  match parseJson data with
  | none => (cards, some syntaxError)
  | some (.arr elems) => decodeElems elems cards
  | some .null => ([], none)
  | some _ => (cards, some typeError)

/-- The hook `Deck.AfterFind`: the deck after the call and the error returned. -/
def AfterFind (d : Deck) : Deck × Option String :=
  if d.CardsJSON.length > 0 then
    match jsonUnmarshal d.CardsJSON d.Cards with
    | (cards, some err) => ({ d with Cards := cards }, some err)
    | (cards, none) => ({ d with Cards := cards }, none)
  else
    (d, none)

/-- What the storage layer hands back when it loads a saved deck: a fresh `Deck{}`
filled with the stored columns, on which `AfterFind` then runs. The field
`Cards` has the tag `gorm:"-"` and is no column, so the fresh deck holds no
cards. -/
def loadFrom (saved : Deck) : Deck × Option String :=
  AfterFind { saved with Cards := [] }

/-- What a Go string is once the encoder has written it and the decoder has read it
back: rune by rune, a byte that starts no well-formed UTF-8 encoding becoming
U+FFFD. -/
def toValidUTF8 : Nat → List Nat → List Nat
  | _, [] => []
  | k + 1, _ :: rest => toValidUTF8 k rest
  | 0, b :: rest =>
    match decodeRune (b :: rest) with
    | (c, size) => encodeRune c ++ toValidUTF8 (size - 1) rest

/-- The JSON object that stands for a card: one string member for each field of
`cardFields`. -/
def cardObject (c : Card) : Json :=
  .obj (cardFields.map fun f => (f.1, .str (toValidUTF8 0 (f.2 c))))

/-- The keys of the members of a JSON object, in their order. -/
def Json.keys : Json → List GoString
  | .obj members => members.map Prod.fst
  | _ => []

/-- A card without its game-type tag, as a loaded deck holds it. -/
def Card.untagged (c : Card) : Card := { c with CardType := [] }

/-- The card that a load finds where the card `c` was saved: the three stored fields
as valid UTF-8, no game-type tag. -/
def Card.stored (c : Card) : Card :=
  { Value := toValidUTF8 0 c.Value, Suit := toValidUTF8 0 c.Suit,
    Code := toValidUTF8 0 c.Code, CardType := [] }

/-- The deck of the single card that `Create` builds for the code `AS`. -/
def aceOfSpadesDeck : Deck :=
  { Deck.zero with
    ID := lit "id", Remaining := 1,
    Cards := [{ Value := lit "ACE", Suit := lit "SPADES", Code := lit "AS",
                CardType := lit "FRENCH" }] }

/-- A Go string of ASCII bytes only. -/
def isASCII (s : GoString) : Prop := ∀ b ∈ s, b < 128

instance (s : GoString) : Decidable (isASCII s) := by unfold isASCII; infer_instance

/-- The function `utf8.ValidString`: every rune of the string is a well-formed
encoding. The first argument counts the bytes still to step over, the rest of
a rune checked already. -/
def validUTF8 : Nat → List Nat → Bool
  | _, [] => true
  | k + 1, _ :: rest => validUTF8 k rest
  | 0, b :: rest =>
    match decodeRune (b :: rest) with
    | (c, size) => !(decide (c = 0xFFFD ∧ size = 1)) && validUTF8 (size - 1) rest

/-- A card whose value, suit and code are valid UTF-8 text. -/
def Card.validText (c : Card) : Prop :=
  validUTF8 0 c.Value = true ∧ validUTF8 0 c.Suit = true ∧ validUTF8 0 c.Code = true

instance (c : Card) : Decidable c.validText := by unfold Card.validText; infer_instance

/-- The invariant of the data model: `remaining == len(cards)`. -/
def Deck.inv (d : Deck) : Prop := d.Remaining = (d.Cards.length : Int)

instance (d : Deck) : Decidable d.inv := by unfold Deck.inv; infer_instance

/-- The standard codes: a rank token of `valueNames` followed by a suit token
of `suitNames`. -/
def standardCodes : List GoString :=
  valueNames.flatMap fun r => suitNames.map fun s => r.1 ++ s.1

/-- The deck of four aces that the tests of the HTTP layer store (`mockDeck`). -/
def aceDeck : Deck :=
  { Deck.zero with
    ID := lit "test_deck_id", Shuffled := true, Remaining := 4,
    Cards :=
      [ { Value := lit "ACE", Suit := lit "CLUBS", Code := lit "AC", CardType := [] },
        { Value := lit "ACE", Suit := lit "DIAMONDS", Code := lit "AD", CardType := [] },
        { Value := lit "ACE", Suit := lit "HEARTS", Code := lit "AH", CardType := [] },
        { Value := lit "ACE", Suit := lit "SPADES", Code := lit "AS", CardType := [] } ] }

/-- The thirteen spades that the tests of the model pass to `Create`. -/
def spadeCodes : List GoString :=
  [ lit "AS", lit "2S", lit "3S", lit "4S", lit "5S", lit "6S", lit "7S", lit "8S",
    lit "9S", lit "10S", lit "JS", lit "QS", lit "KS" ]

/-- The deck of four aces after the storage layer has saved it, loaded it again, and
`Draw(4)` has emptied it: what `DrawCards` passes to the next save. -/
def drawnOutDeck : Deck := (Draw (loadFrom (BeforeSave aceDeck).1).1 4).1

/-- The rank token of a code by the parsing rule of the spec: the first character of
a code of at most two characters, the first two characters of a longer one. -/
def rankToken (code : GoString) : GoString :=
  if code.length ≤ 2 then code.take 1 else code.take 2

/-- The suit token of a code by the parsing rule of the spec: the character that
follows the rank token. -/
def suitToken (code : GoString) : GoString :=
  if code.length ≤ 2 then (code.drop 1).take 1 else (code.drop 2).take 1

/-- The card of a code by the spec: the names the catalog gives for the two tokens of
the code, blank for a token the catalog does not know. -/
def cardOfCode (code : GoString) : Card :=
  { Code := code, Suit := mapGet suitNames (suitToken code),
    Value := mapGet valueNames (rankToken code), CardType := lit "FRENCH" }

/-! ## The check of the requested codes (`api/deck.go`) -/

/-- The assignment `m[k] = v` on a `map[string]string`: the newest binding of a key
comes first and hides an older one. -/
def mapSet (m : List (GoString × GoString)) (k v : GoString) : List (GoString × GoString) :=
  (k, v) :: m

/-- The loop of `getValidCards` that turns the recognized codes into the lookup map:
`validCardsMap[card] = card` for every code. -/
def validCardsMap (validCards : List GoString) : List (GoString × GoString) :=
  validCards.foldl (fun m card => mapSet m card card) []

/-- The query of `getValidCards` on the table of cards, `catalog`: the codes of the
rows with the given card type whose code is among `codes`. -/
def queryCodes (card_type : GoString) (codes : List GoString) (catalog : List Card) :
    List GoString :=
  (catalog.filter fun c => decide (c.CardType = card_type ∧ c.Code ∈ codes)).map Card.Code

/-- The function `getValidCards`, the database being the table `catalog`. -/
def getValidCards (card_type : GoString) (codes : List GoString) (catalog : List Card) :
    List (GoString × GoString) :=
  validCardsMap (queryCodes card_type codes catalog)

/-- The function `getInvalidCards`: the requested codes `card` with
`validCards[card] == ""`, in the order of the request. -/
def getInvalidCards (codes : List GoString) (validCards : List (GoString × GoString)) :
    List GoString :=
  codes.foldl (fun invalidCards card =>
    if mapGet validCards card = [] then invalidCards ++ [card] else invalidCards) []

/-- The check of the parameter `cards` in `CreateNewDeck`: the invalid codes that the
response 400 names, `none` when the handler goes on to `Create`. -/
def checkCards (catalog : List Card) (cards : List GoString) : Option (List GoString) :=
  if (getInvalidCards cards (getValidCards (lit "FRENCH") cards catalog)).length > 0 then
    some (getInvalidCards cards (getValidCards (lit "FRENCH") cards catalog))
  else
    none

/-- The codes the table `catalog` holds for the card type `FRENCH`. -/
def frenchCodes (catalog : List Card) : List GoString :=
  (catalog.filter fun c => decide (c.CardType = lit "FRENCH")).map Card.Code

/-! ## The seeds (`seeds/seeds.go`) and the request for a new deck (`api/deck.go`) -/

/-- The list `suitsList["FRENCH"]`. -/
def suitsListFrench : List GoString :=
  [lit "CLUB", lit "DIAMONDS", lit "HEARTS", lit "SPADES"]

/-- The list `valuesList["FRENCH"]`. -/
def valuesListFrench : List GoString :=
  [ lit "A", lit "2", lit "3", lit "4", lit "5", lit "6", lit "7", lit "8", lit "9",
    lit "10", lit "J", lit "Q", lit "K" ]

/-- The function `seeds.FrenchCardDeck`: the rows it writes into the table of cards, a
suit after the other. The slice expression `suit[0:1]` is in range for each
of the four suits and is their first byte. -/
def FrenchCardDeck : List Card :=
  suitsListFrench.flatMap fun suit =>
    valuesListFrench.map fun value =>
      { Value := value, Suit := suit, Code := value ++ suit.take 1, CardType := lit "FRENCH" }

/-- What `CreateNewDeck` answers to a request. -/
inductive CreateResponse where
  /-- Status 400 with the body `invalid cards: [...]`, the invalid codes named. -/
  | invalidCards (invalid : List GoString)
  /-- Status 400 with the error of `Create` as body. -/
  | createError (msg : String)
  /-- The deck was handed to `db.Create` and is reported. -/
  | created (deck : Deck)
  /-- The handler panicked. -/
  | panicked (msg : String)
  deriving Repr, DecidableEq

/-- The first part of `CreateNewDeck`: the codes it will pass to `Create`, or the
invalid codes of the answer 400. `cards` is `none` when the parameter `cards`
is empty, and the codes are then all codes of the table; otherwise it is the
list `strings.Split(cardsParam, ",")`. -/
def requestedCodes (catalog : List Card) (cards : Option (List GoString)) :
    Except (List GoString) (List GoString) :=
  match cards with
  | some requested =>
    match checkCards catalog requested with
    | some invalid => .error invalid
    | none => .ok requested
  | none => .ok (frenchCodes catalog)

/-- The handler `CreateNewDeck`, the database being the table `catalog`. `cards` is
`none` when the parameter `cards` is empty and otherwise the list
`strings.Split(cardsParam, ",")`; `shuffle` is the parsed parameter `shuffle`;
`newID` and `pick` are what the identifier and the random source deliver.
`db.Create` runs the hook `BeforeSave` on the deck. -/
def CreateNewDeck (catalog : List Card) (newID : GoString) (pick : Nat → Nat) (shuffle : Bool)
    (cards : Option (List GoString)) : CreateResponse :=
  match requestedCodes catalog cards with
  | .error invalid => .invalidCards invalid
  | .ok codes =>
    match Create newID codes with
    | .panic msg => .panicked msg
    | .ret (_, some err) => .createError err
    | .ret (deck, none) =>
      .created (BeforeSave (if shuffle then Shuffle pick deck else deck)).1

/-- The deck of the single card that `Create` builds for a code of the two bytes
`0xFF` and `S`, the first of which is no UTF-8 text. -/
def rawCodeDeck : Deck :=
  { Deck.zero with
    ID := lit "id", Remaining := 1,
    Cards := [{ Value := [], Suit := lit "SPADES", Code := [255, 83],
                CardType := lit "FRENCH" }] }

/-! # Theorems -/

/-! ## Slices -/

theorem goSlice_tail {α : Type} (s : List α) (n : Int) (h0 : 0 ≤ n) (hn : n ≤ (s.length : Int)) :
    goSlice s ((s.length : Int) - n) (s.length : Int) = some (s.drop (s.length - n.toNat)) := by
  unfold goSlice
  have hc : 0 ≤ (s.length : Int) - n ∧ (s.length : Int) - n ≤ (s.length : Int)
      ∧ (s.length : Int) ≤ (s.length : Int) := by omega
  rw [if_pos hc]
  have e1 : ((s.length : Int) - n).toNat = s.length - n.toNat := by omega
  have e2 : ((s.length : Int)).toNat = s.length := by omega
  rw [e1, e2]
  congr 1
  apply List.take_of_length_le
  simp

theorem goSlice_head {α : Type} (s : List α) (n : Int) (h0 : 0 ≤ n) (hn : n ≤ (s.length : Int)) :
    goSlice s 0 ((s.length : Int) - n) = some (s.take (s.length - n.toNat)) := by
  unfold goSlice
  have hc : (0 : Int) ≤ 0 ∧ (0 : Int) ≤ (s.length : Int) - n
      ∧ (s.length : Int) - n ≤ (s.length : Int) := by omega
  rw [if_pos hc]
  have e1 : ((s.length : Int) - n).toNat = s.length - n.toNat := by omega
  rw [e1]
  simp

theorem goSlice_tail_neg {α : Type} (s : List α) (n : Int) (h : n < 0) :
    goSlice s ((s.length : Int) - n) (s.length : Int) = none := by
  unfold goSlice
  rw [if_neg]
  omega

/-! ## Draw -/

theorem Draw_ok (d : Deck) (n : Int) (hle : n ≤ d.Remaining) (h0 : 0 ≤ n)
    (hn : n ≤ (d.Cards.length : Int)) :
    Draw d n =
      ({ d with Cards := d.Cards.take (d.Cards.length - n.toNat),
                Remaining := ((d.Cards.take (d.Cards.length - n.toNat)).length : Int) },
       .ret (d.Cards.drop (d.Cards.length - n.toNat), none)) := by
  unfold Draw
  rw [if_neg (by omega), goSlice_tail _ _ h0 hn, goSlice_head _ _ h0 hn]

theorem Draw_too_many (d : Deck) (n : Int) (h : n > d.Remaining) :
    Draw d n = (d, .ret ([], some "too many cards requested")) := by
  unfold Draw
  rw [if_pos h]

theorem Draw_negative (d : Deck) (n : Int) (hle : n ≤ d.Remaining) (h : n < 0) :
    Draw d n = (d, .panic "slice bounds out of range") := by
  unfold Draw
  rw [if_neg (by omega), goSlice_tail_neg _ _ h]

/-! ## Shuffle -/

theorem swapCards_length (cs : List Card) (i j : Nat) :
    (swapCards cs i j).length = cs.length := by
  unfold swapCards
  split <;> simp

theorem swapCards_perm (cs : List Card) (i j : Nat) : (swapCards cs i j).Perm cs := by
  unfold swapCards
  split
  · rename_i a b ha hb
    obtain ⟨hi, rfl⟩ := List.getElem?_eq_some_iff.mp ha
    obtain ⟨hj, rfl⟩ := List.getElem?_eq_some_iff.mp hb
    rw [List.perm_iff_count]
    intro c
    rw [List.count_set _ _ _ _ (by simpa using hj), List.count_set _ _ _ _ hi]
    have h1 := List.count_pos_iff.mpr (List.getElem_mem hi)
    have h2 := List.count_pos_iff.mpr (List.getElem_mem hj)
    by_cases hij : i = j
    · subst hij
      by_cases hc : cs[i] = c
      · subst hc
        simp
      · simp [hc]
    · by_cases hc : cs[i] = c <;> by_cases hc2 : cs[j] = c
      · rw [hc] at h1
        simp [List.getElem_set, hij, hc, hc2]
        omega
      · rw [hc] at h1
        simp [List.getElem_set, hij, hc, hc2]
        omega
      · rw [hc2] at h2
        simp [List.getElem_set, hij, hc, hc2]
      · simp [List.getElem_set, hij, hc, hc2]
  · exact List.Perm.refl _

theorem shuffleLoop_perm (pick : Nat → Nat) (i : Nat) (cs : List Card) :
    (shuffleLoop pick i cs).Perm cs := by
  induction i generalizing cs with
  | zero => exact List.Perm.refl _
  | succ i ih => exact (ih _).trans (swapCards_perm _ _ _)

/-! ## Create -/

theorem splitCode_isSome (code : GoString) (h : 2 ≤ code.length) :
    (splitCode code).isSome = true := by
  unfold splitCode goSlice
  by_cases h2 : (code.length : Int) ≤ 2
  · have : code.length = 2 := by omega
    simp [this]
  · have h3 : 3 ≤ code.length := by omega
    have h3i : (3 : Int) ≤ (code.length : Int) := by omega
    have h2i : (2 : Int) ≤ (code.length : Int) := by omega
    simp [h2, h3i, h2i]

theorem makeCard_ok (code : GoString) (h : 2 ≤ code.length) :
    ∃ card, makeCard code = .ret card ∧ card.Code = code := by
  unfold makeCard
  have hs := splitCode_isSome code h
  cases hsp : splitCode code with
  | none => rw [hsp] at hs; simp at hs
  | some p => exact ⟨_, rfl, rfl⟩

theorem createLoop_ok (L : List GoString) (h : ∀ c ∈ L, 2 ≤ c.length) (acc : List Card) :
    ∃ cards, createLoop L acc = .ret (acc ++ cards) ∧ cards.map Card.Code = L := by
  induction L generalizing acc with
  | nil => exact ⟨[], by simp [createLoop], rfl⟩
  | cons code rest ih =>
    obtain ⟨card, hcard, hcode⟩ := makeCard_ok code (h code (List.mem_cons_self _ _))
    obtain ⟨cards, hcards, hmap⟩ := ih (fun c hc => h c (List.mem_cons_of_mem _ hc)) (acc ++ [card])
    refine ⟨card :: cards, ?_, ?_⟩
    · simp only [createLoop, hcard, hcards, List.append_assoc, List.singleton_append]
    · simp [hcode, hmap]

theorem standardCodes_length : ∀ c ∈ standardCodes, 2 ≤ c.length := by decide

/-! ## The contract of `Draw` -/

/-- C1. On a deck with `remaining == len(cards)`, `Draw(n)` with
`0 < n ≤ remaining` succeeds and returns the last `n` cards in their order;
afterwards `remaining` has dropped by `n` and the cards kept followed by the
batch are the cards before the call. -/
theorem Draw_returns_last_cards (d : Deck) (n : Int)
    (hinv : d.Remaining = (d.Cards.length : Int)) (hpos : 0 < n) (hle : n ≤ d.Remaining) :
    ∃ batch,
      (Draw d n).2 = .ret (batch, none)
      ∧ batch = d.Cards.drop (d.Cards.length - n.toNat)
      ∧ (batch.length : Int) = n
      ∧ (Draw d n).1.Remaining = d.Remaining - n
      ∧ (Draw d n).1.Cards ++ batch = d.Cards := by
  have hn : n ≤ (d.Cards.length : Int) := by omega
  refine ⟨d.Cards.drop (d.Cards.length - n.toNat), ?_, rfl, ?_, ?_, ?_⟩
  · rw [Draw_ok d n hle (by omega) hn]
  · rw [List.length_drop]
    omega
  · rw [Draw_ok d n hle (by omega) hn]
    simp only [List.length_take]
    omega
  · rw [Draw_ok d n hle (by omega) hn]
    exact List.take_append_drop _ _

/-- A run of C1: three cards drawn from the deck of four aces. -/
theorem Draw_returns_last_cards_witness :
    ∃ batch,
      (Draw aceDeck 3).2 = .ret (batch, none)
      ∧ batch = aceDeck.Cards.drop (aceDeck.Cards.length - (3 : Int).toNat)
      ∧ (batch.length : Int) = 3
      ∧ (Draw aceDeck 3).1.Remaining = aceDeck.Remaining - 3
      ∧ (Draw aceDeck 3).1.Cards ++ batch = aceDeck.Cards :=
  Draw_returns_last_cards aceDeck 3 (by decide) (by decide) (by decide)

/-- C2. `Draw(n)` with `n > remaining` fails with "too many cards requested"
and leaves the deck as it was: cards, remaining, shuffled and id. -/
theorem Draw_too_many_rejected (d : Deck) (n : Int) (h : n > d.Remaining) :
    (Draw d n).2 = .ret ([], some "too many cards requested")
      ∧ (Draw d n).1 = d
      ∧ (Draw d n).1.Cards = d.Cards
      ∧ (Draw d n).1.Remaining = d.Remaining
      ∧ (Draw d n).1.Shuffled = d.Shuffled
      ∧ (Draw d n).1.ID = d.ID := by
  rw [Draw_too_many d n h]
  exact ⟨rfl, rfl, rfl, rfl, rfl, rfl⟩

/-- A run of C2: five cards asked of the deck of four aces. -/
theorem Draw_too_many_rejected_witness :
    (Draw aceDeck 5).2 = .ret ([], some "too many cards requested")
      ∧ (Draw aceDeck 5).1 = aceDeck
      ∧ (Draw aceDeck 5).1.Cards = aceDeck.Cards
      ∧ (Draw aceDeck 5).1.Remaining = aceDeck.Remaining
      ∧ (Draw aceDeck 5).1.Shuffled = aceDeck.Shuffled
      ∧ (Draw aceDeck 5).1.ID = aceDeck.ID :=
  Draw_too_many_rejected aceDeck 5 (by decide)

/-! ## The contract of `Create` -/

/-- C3. For a list `L` of standard codes with `1 ≤ len(L) ≤ 52`, `Create(L)`
succeeds; the deck has `remaining == len(L)`, `shuffled == false`, and the
codes of its cards are `L`, position by position. -/
theorem Create_valid_codes (newID : GoString) (L : List GoString)
    (hvalid : ∀ c ∈ L, c ∈ standardCodes) (h1 : 1 ≤ L.length) (h52 : L.length ≤ 52) :
    ∃ deck,
      Create newID L = .ret (deck, none)
      ∧ deck.Remaining = (L.length : Int)
      ∧ deck.Shuffled = false
      ∧ deck.Cards.map Card.Code = L
      ∧ deck.Cards.length = L.length
      ∧ ∀ i : Nat, (deck.Cards[i]?).map Card.Code = L[i]? := by
  obtain ⟨cards, hloop, hmap⟩ :=
    createLoop_ok L (fun c hc => standardCodes_length c (hvalid c hc)) []
  have hlen : cards.length = L.length := by rw [← hmap, List.length_map]
  refine ⟨{ Deck.zero with ID := newID, Cards := cards, Remaining := (cards.length : Int) },
    ?_, ?_, rfl, hmap, hlen, ?_⟩
  · unfold Create minCardsFrench maxCardsFrench
    rw [if_neg (by omega), if_neg (by omega), hloop]
    rfl
  · simp only [hlen]
  · intro i
    simp only [← hmap, List.getElem?_map]

/-- A run of C3: the thirteen spades of the tests. -/
theorem Create_valid_codes_witness :
    ∃ deck,
      Create (lit "id") spadeCodes = .ret (deck, none)
      ∧ deck.Remaining = (spadeCodes.length : Int)
      ∧ deck.Shuffled = false
      ∧ deck.Cards.map Card.Code = spadeCodes
      ∧ deck.Cards.length = spadeCodes.length
      ∧ ∀ i : Nat, (deck.Cards[i]?).map Card.Code = spadeCodes[i]? :=
  Create_valid_codes (lit "id") spadeCodes (by decide) (by decide) (by decide)

theorem createLoop_no_error (newID : GoString) (L : List GoString) (d : Deck) (msg : String)
    (h1 : ¬ (L.length : Int) < minCardsFrench) (h52 : ¬ (L.length : Int) > maxCardsFrench) :
    Create newID L ≠ .ret (d, some msg) := by
  unfold Create
  rw [if_neg h1, if_neg h52]
  cases createLoop L [] with
  | ret cards => simp
  | panic m => simp

/-- C4. Whatever the codes are, `Create(L)` fails with "too few cards provided"
exactly when `len(L) < 1` and with "too many cards provided" exactly when
`len(L) > 52`; a failing `Create` returns the zero deck and has resolved no
code. -/
theorem Create_count_errors (newID : GoString) (L : List GoString) :
    (Create newID L = .ret (Deck.zero, some "too few cards provided") ↔ L.length < 1)
    ∧ (Create newID L = .ret (Deck.zero, some "too many cards provided") ↔ L.length > 52)
    ∧ (∀ d msg, Create newID L = .ret (d, some msg) →
        d = Deck.zero ∧ d.ID = [] ∧ d.Cards = [] ∧ d.Remaining = 0
        ∧ ((msg = "too few cards provided" ∧ L.length < 1)
            ∨ (msg = "too many cards provided" ∧ L.length > 52))) := by
  by_cases h1 : (L.length : Int) < minCardsFrench
  · have hc : Create newID L = .ret (Deck.zero, some "too few cards provided") := by
      unfold Create
      rw [if_pos h1]
    have hl : L.length < 1 := by unfold minCardsFrench at h1; omega
    rw [hc]
    refine ⟨⟨fun _ => hl, fun _ => rfl⟩, ⟨fun h => ?_, fun h => ?_⟩, ?_⟩
    · simp at h
    · omega
    · intro d msg h
      simp only [Exec.ret.injEq, Prod.mk.injEq, Option.some.injEq] at h
      obtain ⟨rfl, rfl⟩ := h
      exact ⟨rfl, rfl, rfl, rfl, Or.inl ⟨rfl, hl⟩⟩
  · by_cases h52 : (L.length : Int) > maxCardsFrench
    · have hc : Create newID L = .ret (Deck.zero, some "too many cards provided") := by
        unfold Create
        rw [if_neg h1, if_pos h52]
      have hl : L.length > 52 := by unfold maxCardsFrench at h52; omega
      rw [hc]
      refine ⟨⟨fun h => ?_, fun h => ?_⟩, ⟨fun _ => hl, fun _ => rfl⟩, ?_⟩
      · simp at h
      · omega
      · intro d msg h
        simp only [Exec.ret.injEq, Prod.mk.injEq, Option.some.injEq] at h
        obtain ⟨rfl, rfl⟩ := h
        exact ⟨rfl, rfl, rfl, rfl, Or.inr ⟨rfl, hl⟩⟩
    · have hne := fun d msg => createLoop_no_error newID L d msg h1 h52
      unfold minCardsFrench at h1
      unfold maxCardsFrench at h52
      refine ⟨⟨fun h => absurd h (hne _ _), fun h => ?_⟩,
        ⟨fun h => absurd h (hne _ _), fun h => ?_⟩, fun d msg h => absurd h (hne _ _)⟩
      · omega
      · omega

theorem shuffleLoop_length (pick : Nat → Nat) (i : Nat) (cs : List Card) :
    (shuffleLoop pick i cs).length = cs.length :=
  (shuffleLoop_perm pick i cs).length_eq

theorem Draw_inv (d : Deck) (n : Int) (h : d.inv) : (Draw d n).1.inv := by
  unfold Draw
  split
  · exact h
  · split
    · exact h
    · split
      · exact h
      · rfl

theorem Create_inv (newID : GoString) (L : List GoString) (d : Deck)
    (h : Create newID L = .ret (d, none)) : d.inv := by
  unfold Create at h
  split at h
  · simp at h
  · split at h
    · simp at h
    · split at h
      · simp at h
      · simp only [Exec.ret.injEq, Prod.mk.injEq, and_true] at h
        subst h
        rfl

/-! ## The contract of `Shuffle` -/

/-- C6. Whatever the random source delivers, `Shuffle` leaves the cards a
permutation of the cards before the call (so the codes too), sets `shuffled`,
and keeps `remaining` and `id`; on a deck of at most one card the sequence of
cards is unchanged. -/
theorem Shuffle_permutes (pick : Nat → Nat) (d : Deck) :
    (Shuffle pick d).Cards.Perm d.Cards
    ∧ ((Shuffle pick d).Cards.map Card.Code).Perm (d.Cards.map Card.Code)
    ∧ (Shuffle pick d).Shuffled = true
    ∧ (Shuffle pick d).Remaining = d.Remaining
    ∧ (Shuffle pick d).ID = d.ID
    ∧ (d.Cards.length ≤ 1 → (Shuffle pick d).Cards = d.Cards) := by
  have hp : (Shuffle pick d).Cards.Perm d.Cards := shuffleLoop_perm pick _ d.Cards
  refine ⟨hp, hp.map _, rfl, rfl, rfl, fun h => ?_⟩
  have h0 : d.Cards.length - 1 = 0 := by omega
  show shuffleLoop pick (d.Cards.length - 1) d.Cards = d.Cards
  rw [h0]
  rfl

/-! ## The invariant `remaining == len(cards)` -/

/-- C7. `remaining == len(cards)` holds for every deck a successful `Create`
returns, and is kept by `Draw(n)` for every `n`, whether it succeeds, fails or
panics, and by `Shuffle`. -/
theorem remaining_eq_len_invariant :
    (∀ (newID : GoString) (L : List GoString) (d : Deck),
        Create newID L = .ret (d, none) → d.Remaining = (d.Cards.length : Int))
    ∧ (∀ (d : Deck) (n : Int), d.Remaining = (d.Cards.length : Int) →
        (Draw d n).1.Remaining = ((Draw d n).1.Cards.length : Int))
    ∧ (∀ (pick : Nat → Nat) (d : Deck), d.Remaining = (d.Cards.length : Int) →
        (Shuffle pick d).Remaining = ((Shuffle pick d).Cards.length : Int)) := by
  refine ⟨fun newID L d h => Create_inv newID L d h, fun d n h => Draw_inv d n h,
    fun pick d h => ?_⟩
  show d.Remaining = ((shuffleLoop pick (d.Cards.length - 1) d.Cards).length : Int)
  rw [shuffleLoop_length, h]

/-- A run of C7: the deck of four aces drawn from with `n = 2`, `n = 9` and
`n = -1`, and shuffled. -/
theorem remaining_eq_len_invariant_witness :
    aceDeck.Remaining = (aceDeck.Cards.length : Int)
    ∧ (Draw aceDeck 2).1.Remaining = ((Draw aceDeck 2).1.Cards.length : Int)
    ∧ (Draw aceDeck 9).1.Remaining = ((Draw aceDeck 9).1.Cards.length : Int)
    ∧ (Draw aceDeck (-1)).1.Remaining = ((Draw aceDeck (-1)).1.Cards.length : Int)
    ∧ (Shuffle (fun _ => 0) aceDeck).Remaining
        = ((Shuffle (fun _ => 0) aceDeck).Cards.length : Int) :=
  ⟨by decide, remaining_eq_len_invariant.2.1 aceDeck 2 (by decide),
    remaining_eq_len_invariant.2.1 aceDeck 9 (by decide),
    remaining_eq_len_invariant.2.1 aceDeck (-1) (by decide),
    remaining_eq_len_invariant.2.2 (fun _ => 0) aceDeck (by decide)⟩

/-! ## Non-positive counts -/

/-- C8, as the spec states it, fails: `Draw(0)` on the deck of four aces
returns an empty batch and a nil error, and the deck is as before. -/
theorem Draw_zero_not_rejected :
    Draw aceDeck 0 = (aceDeck, .ret ([], none))
    ∧ ¬ ∃ batch msg, (Draw aceDeck 0).2 = .ret (batch, some msg) := by
  have h : Draw aceDeck 0 = (aceDeck, .ret ([], none)) := by decide
  refine ⟨h, ?_⟩
  rw [h]
  simp

/-- C8, amended. On a deck with `remaining == len(cards)`, `Draw(0)` is not
rejected: it succeeds, returns the empty batch and leaves the deck as it was. -/
theorem Draw_zero_is_noop (d : Deck) (hinv : d.Remaining = (d.Cards.length : Int)) :
    Draw d 0 = (d, .ret ([], none)) := by
  rw [Draw_ok d 0 (by omega) (by omega) (by omega)]
  have e : d.Cards.length - (0 : Int).toNat = d.Cards.length := by simp
  rw [e, List.take_length, List.drop_length, ← hinv]

/-- A run of the amended C8 on the deck of four aces. -/
theorem Draw_zero_is_noop_witness : Draw aceDeck 0 = (aceDeck, .ret ([], none)) :=
  Draw_zero_is_noop aceDeck (by decide)

/-- A negative count passes the guard of `Draw` on a deck with
`remaining ≥ 0` and makes the first slice expression panic. -/
theorem Draw_negative_panics (d : Deck) (n : Int) (hrem : 0 ≤ d.Remaining) (h : n < 0) :
    Draw d n = (d, .panic "slice bounds out of range") :=
  Draw_negative d n (by omega) h

/-! ## String literals through the encoder and the decoder -/

theorem encodeStringBody_nil (k : Nat) : encodeStringBody k [] = [] := by
  cases k <;> rfl

theorem encodeStringBody_skip (k : Nat) (s : List Nat) :
    encodeStringBody k s = encodeStringBody 0 (s.drop k) := by
  induction s generalizing k with
  | nil => simp [encodeStringBody_nil]
  | cons b rest ih =>
    cases k with
    | zero => rfl
    | succ k => simpa [encodeStringBody] using ih k

theorem toValidUTF8_nil (k : Nat) : toValidUTF8 k [] = [] := by
  cases k <;> rfl

theorem toValidUTF8_skip (k : Nat) (s : List Nat) :
    toValidUTF8 k s = toValidUTF8 0 (s.drop k) := by
  induction s generalizing k with
  | nil => simp [toValidUTF8_nil]
  | cons b rest ih =>
    cases k with
    | zero => rfl
    | succ k => simpa [toValidUTF8] using ih k

theorem unquoteBody_skip (k : Nat) (pre s : List Nat) (h : pre.length = k) :
    unquoteBody k (pre ++ s) = unquoteBody 0 s := by
  induction pre generalizing k with
  | nil => subst h; rfl
  | cons b rest ih =>
    subst h
    simpa [unquoteBody] using ih rest.length rfl

theorem hexValue_hexDigit (n : Nat) (h : n < 16) : hexValue (hexDigit n) = some n := by
  unfold hexValue hexDigit
  by_cases h10 : n < 10
  · rw [if_pos h10, if_pos (by omega)]
    congr 1
    omega
  · rw [if_neg h10, if_neg (by omega), if_pos (by omega)]
    congr 1
    omega

theorem decodeRune_cons (b0 : Nat) (rest : List Nat) :
    decodeRune (b0 :: rest) =
      if b0 < 0x80 then (b0, 1)
      else if 0xC2 ≤ b0 ∧ b0 ≤ 0xDF then
        match rest with
        | b1 :: _ =>
          if 0x80 ≤ b1 ∧ b1 ≤ 0xBF then ((b0 % 32) * 64 + b1 % 64, 2) else (0xFFFD, 1)
        | _ => (0xFFFD, 1)
      else if 0xE0 ≤ b0 ∧ b0 ≤ 0xEF then
        match rest with
        | b1 :: b2 :: _ =>
          if acceptLo b0 ≤ b1 ∧ b1 ≤ acceptHi b0 ∧ 0x80 ≤ b2 ∧ b2 ≤ 0xBF then
            ((b0 % 16) * 4096 + (b1 % 64) * 64 + b2 % 64, 3)
          else (0xFFFD, 1)
        | _ => (0xFFFD, 1)
      else if 0xF0 ≤ b0 ∧ b0 ≤ 0xF4 then
        match rest with
        | b1 :: b2 :: b3 :: _ =>
          if acceptLo b0 ≤ b1 ∧ b1 ≤ acceptHi b0 ∧ 0x80 ≤ b2 ∧ b2 ≤ 0xBF
              ∧ 0x80 ≤ b3 ∧ b3 ≤ 0xBF then
            ((b0 % 8) * 262144 + (b1 % 64) * 4096 + (b2 % 64) * 64 + b3 % 64, 4)
          else (0xFFFD, 1)
        | _ => (0xFFFD, 1)
      else (0xFFFD, 1) := rfl

/-- A decoded rune of width two or more does not depend on the bytes after it. -/
theorem decodeRune_prefix (b : Nat) (rest tail : List Nat) (c size : Nat)
    (h : decodeRune (b :: rest) = (c, size)) (h2 : 2 ≤ size) :
    size - 1 ≤ rest.length ∧ decodeRune (b :: (rest.take (size - 1) ++ tail)) = (c, size) := by
  rcases rest with _ | ⟨b1, _ | ⟨b2, _ | ⟨b3, r⟩⟩⟩ <;> simp only [decodeRune_cons] at h <;>
    split_ifs at h <;> simp only [Prod.mk.injEq] at h <;> obtain ⟨rfl, rfl⟩ := h <;>
    first
    | omega
    | (refine ⟨by simp, ?_⟩; simp [decodeRune_cons, *])

/-- Past ASCII, a decoded rune of width one is the replacement rune. -/
theorem decodeRune_width_one (b : Nat) (rest : List Nat) (c : Nat) (hb : ¬ b < 128)
    (h : decodeRune (b :: rest) = (c, 1)) : c = 0xFFFD := by
  rcases rest with _ | ⟨b1, _ | ⟨b2, _ | ⟨b3, r⟩⟩⟩ <;> simp only [decodeRune_cons] at h <;>
    split_ifs at h <;> simp only [Prod.mk.injEq] at h <;> omega

theorem decodeRune_width_pos (b : Nat) (rest : List Nat) : 1 ≤ (decodeRune (b :: rest)).2 := by
  rcases rest with _ | ⟨b1, _ | ⟨b2, _ | ⟨b3, r⟩⟩⟩ <;> simp only [decodeRune_cons] <;>
    split_ifs <;> simp

theorem encodeStringBody_cons (b : Nat) (rest : List Nat) :
    encodeStringBody 0 (b :: rest) =
      if b < 128 then
        (if htmlSafe b then [b] else escapeByte b) ++ encodeStringBody 0 rest
      else
        match decodeRune (b :: rest) with
        | (c, size) =>
          if c = 0xFFFD ∧ size = 1 then
            [92, 117, 102, 102, 102, 100] ++ encodeStringBody 0 rest
          else if c = 0x2028 ∨ c = 0x2029 then
            [92, 117, 50, 48, 50, hexDigit (c % 16)] ++ encodeStringBody (size - 1) rest
          else
            (b :: rest).take size ++ encodeStringBody (size - 1) rest := rfl

theorem toValidUTF8_cons (b : Nat) (rest : List Nat) :
    toValidUTF8 0 (b :: rest) =
      encodeRune (decodeRune (b :: rest)).1
        ++ toValidUTF8 ((decodeRune (b :: rest)).2 - 1) rest := rfl

theorem unquoteBody_cons (b : Nat) (rest : List Nat) :
    unquoteBody 0 (b :: rest) =
      if b = 34 then some ([], rest)
      else if b = 92 then
        match unquoteEscape rest with
        | none => none
        | some (out, k) =>
          match unquoteBody k rest with
          | none => none
          | some (s, after) => some (out ++ s, after)
      else if b < 32 then none
      else if b < 128 then
        match unquoteBody 0 rest with
        | none => none
        | some (s, after) => some (b :: s, after)
      else
        match decodeRune (b :: rest) with
        | (c, size) =>
          match unquoteBody (size - 1) rest with
          | none => none
          | some (s, after) => some (encodeRune c ++ s, after) := rfl

theorem encodeRune_ascii (b : Nat) (hb : b < 128) : encodeRune b = [b] := by
  unfold encodeRune
  rw [if_pos hb]

/-- An escape of the form `\u00XY` is read back as the byte it was written for. -/
theorem unquoteEscape_u00 (b : Nat) (hb : b < 128) (rest : List Nat) :
    unquoteEscape (117 :: 48 :: 48 :: hexDigit (b / 16) :: hexDigit (b % 16) :: rest)
      = some ([b], 5) := by
  have h1 := hexValue_hexDigit (b / 16) (by omega)
  have h2 := hexValue_hexDigit (b % 16) (by omega)
  have h0 : hexValue 48 = some 0 := by decide
  have e : b / 16 * 16 + b % 16 = b := by omega
  have hs : ¬ (0xD800 ≤ b ∧ b < 0xE000) := by omega
  simp [unquoteEscape, hex4, h0, h1, h2, e, encodeRune_ascii b hb, hs]

/-- The escape the encoder writes for an ASCII byte outside `htmlSafeSet` is read
back as that byte. -/
theorem unquoteBody_escapeByte (b : Nat) (hb : b < 128) (x : List Nat) :
    ∃ k pre, escapeByte b ++ x = 92 :: (pre ++ x) ∧ pre.length = k
      ∧ unquoteEscape (pre ++ x) = some ([b], k) := by
  unfold escapeByte
  by_cases h1 : b = 92 ∨ b = 34
  · rw [if_pos h1]
    refine ⟨1, [b], rfl, rfl, ?_⟩
    rcases h1 with rfl | rfl <;> simp [unquoteEscape]
  · rw [if_neg h1]
    by_cases h2 : b = 10
    · subst h2
      exact ⟨1, [110], rfl, rfl, by simp [unquoteEscape]⟩
    · rw [if_neg h2]
      by_cases h3 : b = 13
      · subst h3
        exact ⟨1, [114], rfl, rfl, by simp [unquoteEscape]⟩
      · rw [if_neg h3]
        by_cases h4 : b = 9
        · subst h4
          exact ⟨1, [116], rfl, rfl, by simp [unquoteEscape]⟩
        · rw [if_neg h4]
          exact ⟨5, [117, 48, 48, hexDigit (b / 16), hexDigit (b % 16)], rfl, rfl,
            unquoteEscape_u00 b hb x⟩

theorem unquoteBody_skip5 (a b c d e : Nat) (x : List Nat) :
    unquoteBody 5 (a :: b :: c :: d :: e :: x) = unquoteBody 0 x := rfl

theorem htmlSafe_bounds (b : Nat) (h : htmlSafe b = true) :
    32 ≤ b ∧ b < 128 ∧ b ≠ 34 ∧ b ≠ 92 := by
  unfold htmlSafe at h
  simp only [decide_eq_true_eq] at h
  omega

/-- A string literal written by the encoder is read back by the decoder as the
string made valid UTF-8, whatever follows the closing quote. -/
theorem unquoteBody_encodeStringBody (n : Nat) :
    ∀ s : List Nat, s.length ≤ n → ∀ tail : List Nat,
      unquoteBody 0 (encodeStringBody 0 s ++ 34 :: tail) = some (toValidUTF8 0 s, tail) := by
  induction n with
  | zero =>
    intro s hs tail
    have : s = [] := List.length_eq_zero.mp (by omega)
    subst this
    rfl
  | succ n ih =>
    intro s hs tail
    cases s with
    | nil => rfl
    | cons b rest =>
      have hrest : rest.length ≤ n := by simpa using hs
      rw [encodeStringBody_cons, toValidUTF8_cons]
      by_cases hb : b < 128
      · have hdec : decodeRune (b :: rest) = (b, 1) := by rw [decodeRune_cons, if_pos hb]
        rw [if_pos hb, hdec, encodeRune_ascii b hb]
        by_cases hsafe : htmlSafe b = true
        · obtain ⟨h32, _, h34, h92⟩ := htmlSafe_bounds b hsafe
          rw [if_pos hsafe]
          simp only [List.singleton_append, List.cons_append, List.nil_append, Nat.sub_self]
          rw [unquoteBody_cons, if_neg h34, if_neg h92, if_neg (by omega), if_pos hb,
            ih rest hrest tail]
        · rw [if_neg hsafe]
          obtain ⟨k, pre, hpre, hk, hesc⟩ :=
            unquoteBody_escapeByte b hb (encodeStringBody 0 rest ++ 34 :: tail)
          rw [List.append_assoc, hpre, unquoteBody_cons, if_neg (by omega), if_pos rfl, hesc]
          simp only [Nat.sub_self]
          rw [unquoteBody_skip k pre _ hk, ih rest hrest tail]
      · rw [if_neg hb]
        rcases hdec : decodeRune (b :: rest) with ⟨c, size⟩
        simp only
        have hpos : 1 ≤ size := by
          have := decodeRune_width_pos b rest
          rw [hdec] at this
          exact this
        have hdrop : (rest.drop (size - 1)).length ≤ n := by
          rw [List.length_drop]
          omega
        have hcont : ∀ x : List Nat,
            unquoteBody 0 (encodeStringBody (size - 1) rest ++ 34 :: x)
              = some (toValidUTF8 (size - 1) rest, x) := by
          intro x
          rw [encodeStringBody_skip, toValidUTF8_skip]
          exact ih _ hdrop x
        by_cases hinv : c = 0xFFFD ∧ size = 1
        · obtain ⟨rfl, rfl⟩ := hinv
          rw [if_pos ⟨rfl, rfl⟩]
          have hx := hcont tail
          simp only [Nat.sub_self] at hx
          have hesc : ∀ x : List Nat,
              unquoteEscape (117 :: 102 :: 102 :: 102 :: 100 :: x) = some (encodeRune 0xFFFD, 5) := by
            intro x
            simp [unquoteEscape, hex4, hexValue]
          simp only [List.cons_append, List.nil_append]
          rw [unquoteBody_cons, if_neg (by omega), if_pos rfl, hesc]
          simp only [Nat.sub_self]
          rw [unquoteBody_skip5, hx]
        · rw [if_neg hinv]
          have h2 : 2 ≤ size := by
            by_contra hlt
            have h1 : size = 1 := by omega
            subst h1
            exact hinv ⟨decodeRune_width_one b rest c hb hdec, rfl⟩
          by_cases hsep : c = 0x2028 ∨ c = 0x2029
          · rw [if_pos hsep]
            have hesc : ∀ x : List Nat,
                unquoteEscape (117 :: 50 :: 48 :: 50 :: hexDigit (c % 16) :: x)
                  = some (encodeRune c, 5) := by
              intro x
              rcases hsep with rfl | rfl <;> simp [unquoteEscape, hex4, hexValue, hexDigit]
            simp only [List.cons_append, List.nil_append]
            rw [unquoteBody_cons, if_neg (by omega), if_pos rfl, hesc]
            simp only
            rw [unquoteBody_skip5, hcont tail]
          · rw [if_neg hsep]
            obtain ⟨hlen, hpre⟩ := decodeRune_prefix b rest
              (encodeStringBody (size - 1) rest ++ 34 :: tail) c size hdec h2
            have htake : (b :: rest).take size = b :: rest.take (size - 1) := by
              obtain ⟨m, rfl⟩ : ∃ m, size = m + 1 := ⟨size - 1, by omega⟩
              simp
            rw [htake]
            simp only [List.cons_append, List.append_assoc]
            rw [unquoteBody_cons, if_neg (by omega), if_neg (by omega), if_neg (by omega),
              if_neg hb, hpre]
            simp only
            rw [unquoteBody_skip (size - 1) (rest.take (size - 1)) _
              (by rw [List.length_take]; omega), hcont tail]

/-- An ASCII string is valid UTF-8 as it stands. -/
theorem toValidUTF8_ascii (s : List Nat) (h : isASCII s) : toValidUTF8 0 s = s := by
  induction s with
  | nil => rfl
  | cons b rest ih =>
    have hb : b < 128 := h b (List.mem_cons_self _ _)
    have hdec : decodeRune (b :: rest) = (b, 1) := by rw [decodeRune_cons, if_pos hb]
    rw [toValidUTF8_cons, hdec, encodeRune_ascii b hb]
    simp only [Nat.sub_self, List.singleton_append, List.cons.injEq, true_and]
    exact ih fun x hx => h x (List.mem_cons_of_mem _ hx)

/-! ## The text of `json.Marshal` through the parser -/

theorem skipSpace_cons (b : Nat) (rest : List Nat)
    (h : b ≠ 32 ∧ b ≠ 9 ∧ b ≠ 13 ∧ b ≠ 10) : skipSpace (b :: rest) = b :: rest := by
  unfold skipSpace
  rw [if_neg (by omega)]

/-- A string literal written by the encoder is read by `parseValue` as a string value. -/
theorem parseValue_encodeString (fuel : Nat) (s tail : List Nat) :
    parseValue (fuel + 1) (encodeString s ++ tail) = some (.str (toValidUTF8 0 s), tail) := by
  have h := unquoteBody_encodeStringBody s.length s (Nat.le_refl _) tail
  have e : encodeString s ++ tail = 34 :: (encodeStringBody 0 s ++ 34 :: tail) := by
    simp [encodeString]
  rw [e]
  simp only [parseValue]
  rw [skipSpace_cons 34 _ (by omega)]
  simp [h]

/-- One round of `parseMembers` over a member written by the encoder and the
delimiter `e` after it. -/
theorem parseMembers_step (fuel : Nat) (m : GoString × GoString) (e : Nat) (x : List Nat)
    (acc : List (GoString × Json)) (he : e = 44 ∨ e = 125) :
    parseMembers (fuel + 2) (encodeMember m ++ e :: x) acc =
      if e = 44 then
        parseMembers (fuel + 1) x (acc ++ [(toValidUTF8 0 m.1, .str (toValidUTF8 0 m.2))])
      else
        some (.obj (acc ++ [(toValidUTF8 0 m.1, .str (toValidUTF8 0 m.2))]), x) := by
  have hk := unquoteBody_encodeStringBody m.1.length m.1 (Nat.le_refl _)
    (58 :: (encodeString m.2 ++ e :: x))
  have hv := parseValue_encodeString fuel m.2 (e :: x)
  have e1 : encodeMember m ++ e :: x
      = 34 :: (encodeStringBody 0 m.1 ++ 34 :: 58 :: (encodeString m.2 ++ e :: x)) := by
    simp [encodeMember, encodeString]
  rw [e1]
  simp only [parseMembers]
  rw [skipSpace_cons 34 _ (by omega)]
  simp only [if_true, hk]
  rw [skipSpace_cons 58 _ (by omega)]
  simp only [if_true, hv]
  rw [skipSpace_cons e _ (by omega)]
  rcases he with rfl | rfl <;> simp

theorem encodeMember_head (m : GoString × GoString) (x : List Nat) :
    ∃ t, encodeMember m ++ x = 34 :: t :=
  ⟨encodeStringBody 0 m.1 ++ 34 :: 58 :: (encodeString m.2 ++ x), by
    simp [encodeMember, encodeString]⟩

theorem joinComma_cons_cons (a b : List Nat) (rest : List (List Nat)) :
    joinComma (a :: b :: rest) = a ++ 44 :: joinComma (b :: rest) := rfl

/-- The members of an object written by the encoder, up to the closing brace, are
read by `parseMembers` in their order. -/
theorem parseMembers_members (ms : List (GoString × GoString)) :
    ∀ (fuel : Nat) (x : List Nat) (acc : List (GoString × Json)),
      ms ≠ [] → ms.length + 1 ≤ fuel →
      parseMembers fuel (joinComma (ms.map encodeMember) ++ 125 :: x) acc =
        some (.obj (acc ++ ms.map fun m => (toValidUTF8 0 m.1, .str (toValidUTF8 0 m.2))), x) := by
  induction ms with
  | nil => intro _ _ _ h; exact absurd rfl h
  | cons m rest ih =>
    intro fuel x acc _ hf
    obtain ⟨f, rfl⟩ : ∃ f, fuel = f + 2 := ⟨fuel - 2, by simp at hf; omega⟩
    cases rest with
    | nil =>
      simp only [List.map_cons, List.map_nil, joinComma]
      rw [parseMembers_step f m 125 x acc (Or.inr rfl)]
      simp
    | cons m2 rest2 =>
      simp only [List.map_cons] at ih ⊢
      rw [joinComma_cons_cons, List.append_assoc, List.cons_append,
        parseMembers_step f m 44 _ acc (Or.inl rfl), if_pos rfl,
        ih (f + 1) x _ (by simp) (by simp at hf ⊢; omega)]
      simp

theorem cardFields_eq : cardFields
    = [(lit "value", Card.Value), (lit "suit", Card.Suit), (lit "code", Card.Code)] := by
  simp [cardFields, cardTags, lit]

theorem toValidUTF8_tags :
    toValidUTF8 0 (lit "value") = lit "value" ∧ toValidUTF8 0 (lit "suit") = lit "suit"
      ∧ toValidUTF8 0 (lit "code") = lit "code" := by
  refine ⟨toValidUTF8_ascii _ ?_, toValidUTF8_ascii _ ?_, toValidUTF8_ascii _ ?_⟩ <;> decide

/-- A card written by the encoder is read by `parseValue` as the object of the card. -/
theorem parseValue_encodeCard (fuel : Nat) (c : Card) (x : List Nat) (hf : 5 ≤ fuel) :
    parseValue fuel (encodeCard c ++ x) = some (cardObject c, x) := by
  obtain ⟨f, rfl⟩ : ∃ f, fuel = f + 1 := ⟨fuel - 1, by omega⟩
  have hms := parseMembers_members (cardFields.map fun g => (g.1, g.2 c)) f x []
    (by simp [cardFields_eq]) (by simp [cardFields_eq]; omega)
  obtain ⟨t, ht⟩ := encodeMember_head (lit "value", c.Value)
    (44 :: joinComma ([(lit "suit", c.Suit), (lit "code", c.Code)].map encodeMember)
      ++ 125 :: x)
  have e : encodeCard c ++ x
      = 123 :: (joinComma ((cardFields.map fun g => (g.1, g.2 c)).map encodeMember)
          ++ 125 :: x) := by
    simp [encodeCard, List.map_map, Function.comp_def]
  have e2 : joinComma ((cardFields.map fun g => (g.1, g.2 c)).map encodeMember) ++ 125 :: x
      = 34 :: t := by
    rw [← ht]
    simp [cardFields_eq, joinComma]
  rw [e]
  simp only [parseValue]
  rw [skipSpace_cons 123 _ (by omega), e2]
  simp only [if_true]
  rw [skipSpace_cons 34 _ (by omega)]
  simp only
  rw [if_neg (by omega), ← e2, hms]
  obtain ⟨h1, h2, h3⟩ := toValidUTF8_tags
  simp [cardObject, cardFields_eq, h1, h2, h3]

theorem encodeCard_head (c : Card) (x : List Nat) : ∃ t, encodeCard c ++ x = 123 :: t :=
  ⟨joinComma (cardFields.map fun f => encodeMember (f.1, f.2 c)) ++ 125 :: x, by
    simp [encodeCard]⟩

theorem encodeCard_length_pos (c : Card) : 1 ≤ (encodeCard c).length := by
  simp [encodeCard]

/-- The cards written by the encoder, up to the closing bracket, are read by
`parseElems` in their order. -/
theorem parseElems_cards (cs : List Card) :
    ∀ (fuel : Nat) (x : List Nat) (acc : List Json),
      cs ≠ [] → cs.length + 5 ≤ fuel →
      parseElems fuel (joinComma (cs.map encodeCard) ++ 93 :: x) acc =
        some (.arr (acc ++ cs.map cardObject), x) := by
  induction cs with
  | nil => intro _ _ _ h; exact absurd rfl h
  | cons c rest ih =>
    intro fuel x acc _ hf
    obtain ⟨f, rfl⟩ : ∃ f, fuel = f + 1 := ⟨fuel - 1, by omega⟩
    have hf5 : 5 ≤ f := by simp at hf; omega
    cases rest with
    | nil =>
      simp only [List.map_cons, List.map_nil, joinComma]
      simp only [parseElems]
      rw [parseValue_encodeCard f c _ hf5]
      dsimp only
      rw [skipSpace_cons 93 _ (by omega)]
      simp
    | cons c2 rest2 =>
      simp only [List.map_cons] at ih ⊢
      rw [joinComma_cons_cons, List.append_assoc, List.cons_append]
      simp only [parseElems]
      rw [parseValue_encodeCard f c _ hf5]
      dsimp only
      rw [skipSpace_cons 44 _ (by omega)]
      simp only [if_true]
      rw [ih f x _ (by simp) (by simp at hf ⊢; omega)]
      simp

theorem parseValue_array (fuel : Nat) (rest : List Nat) (c : Nat) (rest2 : List Nat)
    (h : skipSpace rest = c :: rest2) (hc : c ≠ 93) :
    parseValue (fuel + 1) (91 :: rest) = parseElems fuel (c :: rest2) [] := by
  simp only [parseValue]
  rw [skipSpace_cons 91 _ (by omega)]
  simp [h, hc]

theorem joinComma_length (xs : List (List Nat)) (h : ∀ x ∈ xs, 1 ≤ x.length) :
    xs.length ≤ (joinComma xs).length := by
  induction xs with
  | nil => simp [joinComma]
  | cons a rest ih =>
    cases rest with
    | nil =>
      have := h a (List.mem_cons_self _ _)
      simpa [joinComma] using this
    | cons b rest2 =>
      have h1 := ih fun x hx => h x (List.mem_cons_of_mem _ hx)
      rw [joinComma_cons_cons]
      simp only [List.length_append, List.length_cons] at h1 ⊢
      omega

/-- The text `json.Marshal` writes for a sequence of cards is a JSON text; read as
such it is the array of the objects of the cards, in their order. -/
theorem parseJson_marshal (cs : List Card) :
    parseJson ([91] ++ joinComma (cs.map encodeCard) ++ [93]) = some (.arr (cs.map cardObject)) := by
  cases cs with
  | nil =>
    simp only [List.map_nil, joinComma, parseJson]
    simp [parseValue, skipSpace]
  | cons c rest =>
    have hlen := joinComma_length ((c :: rest).map encodeCard) (by
      intro x hx
      obtain ⟨c', _, rfl⟩ := List.mem_map.mp hx
      exact encodeCard_length_pos c')
    rw [List.length_map] at hlen
    obtain ⟨t, ht⟩ := encodeCard_head c
      (match rest with
        | [] => [93]
        | c2 :: rest2 => 44 :: joinComma ((c2 :: rest2).map encodeCard) ++ [93])
    have e2 : joinComma ((c :: rest).map encodeCard) ++ [93] = 123 :: t := by
      rw [← ht]
      cases rest with
      | nil => simp [joinComma]
      | cons c2 rest2 => simp [joinComma_cons_cons]
    have hel := parseElems_cards (c :: rest)
      (2 * ([91] ++ joinComma ((c :: rest).map encodeCard) ++ [93]).length + 1) [] []
      (by simp) (by
        simp only [List.length_append, List.length_cons, List.length_nil] at hlen ⊢
        omega)
    unfold parseJson
    generalize hF : 2 * ([91] ++ joinComma ((c :: rest).map encodeCard) ++ [93]).length + 1
      = fuel at hel
    have hF2 : 2 * ([91] ++ joinComma ((c :: rest).map encodeCard) ++ [93]).length + 2
      = fuel + 1 := by omega
    rw [hF2]
    have e3 : [91] ++ joinComma ((c :: rest).map encodeCard) ++ [93]
        = 91 :: (joinComma ((c :: rest).map encodeCard) ++ [93]) := by simp
    rw [e3]
    rw [parseValue_array fuel _ 123 t (by rw [e2, skipSpace_cons 123 _ (by omega)]) (by omega),
      ← e2, hel]
    simp [skipSpace]

theorem findField_tags :
    findField (lit "value") = some (lit "value") ∧ findField (lit "suit") = some (lit "suit")
      ∧ findField (lit "code") = some (lit "code") := by decide

/-- Storing the object of a card into a card sets the three stored fields and
keeps the tag of the target. -/
theorem decodeCard_cardObject (c target : Card) :
    decodeCard (cardObject c) target =
      ({ Value := toValidUTF8 0 c.Value, Suit := toValidUTF8 0 c.Suit,
         Code := toValidUTF8 0 c.Code, CardType := target.CardType }, none) := by
  obtain ⟨h1, h2, h3⟩ := findField_tags
  have n1 : lit "suit" ≠ lit "value" := by decide
  have n2 : lit "code" ≠ lit "value" := by decide
  have n3 : lit "code" ≠ lit "suit" := by decide
  simp [decodeCard, cardObject, cardFields_eq, decodeMember, h1, h2, h3, setField, n1, n2, n3]

/-- Storing the objects of a sequence of cards into an empty slice. -/
theorem decodeElems_cardObjects (cs : List Card) :
    decodeElems (cs.map cardObject) [] = (cs.map Card.stored, none) := by
  induction cs with
  | nil => rfl
  | cons c rest ih =>
    simp only [List.map_cons, decodeElems, List.tail_nil, ih, List.headD_nil,
      decodeCard_cardObject]
    rfl

/-- On a deck that holds a card, `BeforeSave` stores the text of `json.Marshal`. -/
theorem BeforeSave_nonempty (d : Deck) (h : d.Cards ≠ []) :
    BeforeSave d
      = ({ d with CardsJSON := [91] ++ joinComma (d.Cards.map encodeCard) ++ [93] }, none) := by
  unfold BeforeSave jsonMarshal
  rw [if_pos (List.length_pos.mpr h)]

/-- On a deck that holds no card, `BeforeSave` changes nothing. -/
theorem BeforeSave_empty (d : Deck) (h : d.Cards = []) : BeforeSave d = (d, none) := by
  unfold BeforeSave
  rw [if_neg (by simp [h])]

/-- The hook `AfterFind` on a deck that holds no card yet and whose stored attribute is
the text of `json.Marshal` for the cards `cs`. -/
theorem AfterFind_marshal (d : Deck) (cs : List Card) (hC : d.Cards = [])
    (hJ : d.CardsJSON = [91] ++ joinComma (cs.map encodeCard) ++ [93]) :
    AfterFind d = ({ d with Cards := cs.map Card.stored }, none) := by
  unfold AfterFind
  rw [if_pos (by simp [hJ])]
  unfold jsonUnmarshal
  rw [hJ, parseJson_marshal, hC]
  simp only [decodeElems_cardObjects]

/-- Loading what `BeforeSave` stored for a deck that holds a card. -/
theorem loadFrom_BeforeSave (d : Deck) (h : d.Cards ≠ []) :
    loadFrom (BeforeSave d).1
      = ({ d with
            CardsJSON := [91] ++ joinComma (d.Cards.map encodeCard) ++ [93],
            Cards := d.Cards.map Card.stored }, none) := by
  rw [BeforeSave_nonempty d h]
  unfold loadFrom
  rw [AfterFind_marshal _ d.Cards rfl rfl]

/-! ## Valid UTF-8 text -/

/-- A well-formed encoding is the encoding of the rune it decodes to. -/
theorem encodeRune_decodeRune (b : Nat) (rest : List Nat) (c size : Nat)
    (h : decodeRune (b :: rest) = (c, size)) (hv : ¬ (c = 0xFFFD ∧ size = 1)) :
    encodeRune c = (b :: rest).take size := by
  rcases rest with _ | ⟨b1, _ | ⟨b2, _ | ⟨b3, r⟩⟩⟩ <;> simp only [decodeRune_cons] at h <;>
    split_ifs at h <;> simp only [Prod.mk.injEq] at h <;> obtain ⟨rfl, rfl⟩ := h <;>
    first
    | (exfalso; exact hv ⟨rfl, rfl⟩)
    | (unfold encodeRune
       simp only [List.take_succ_cons, List.take_zero, acceptLo, acceptHi] at *
       split_ifs at * <;> first | omega | (simp only [List.cons.injEq, and_true] <;> omega))

theorem validUTF8_nil (k : Nat) : validUTF8 k [] = true := by
  cases k <;> rfl

theorem validUTF8_skip (k : Nat) (s : List Nat) : validUTF8 k s = validUTF8 0 (s.drop k) := by
  induction s generalizing k with
  | nil => simp [validUTF8_nil]
  | cons b rest ih =>
    cases k with
    | zero => rfl
    | succ k => simpa [validUTF8] using ih k

theorem validUTF8_cons (b : Nat) (rest : List Nat) :
    validUTF8 0 (b :: rest) =
      (!(decide ((decodeRune (b :: rest)).1 = 0xFFFD ∧ (decodeRune (b :: rest)).2 = 1))
        && validUTF8 ((decodeRune (b :: rest)).2 - 1) rest) := rfl

/-- Valid UTF-8 text is left as it is when it is made valid UTF-8. -/
theorem toValidUTF8_valid (n : Nat) :
    ∀ s : List Nat, s.length ≤ n → validUTF8 0 s = true → toValidUTF8 0 s = s := by
  induction n with
  | zero =>
    intro s hs _
    have : s = [] := List.length_eq_zero.mp (by omega)
    subst this
    rfl
  | succ n ih =>
    intro s hs hv
    cases s with
    | nil => rfl
    | cons b rest =>
      rw [validUTF8_cons] at hv
      rw [toValidUTF8_cons]
      rcases hdec : decodeRune (b :: rest) with ⟨c, size⟩
      rw [hdec] at hv
      simp only [Bool.and_eq_true, Bool.not_eq_true', decide_eq_false_iff_not] at hv
      obtain ⟨hok, hrest⟩ := hv
      have hpos : 1 ≤ size := by
        have := decodeRune_width_pos b rest
        rw [hdec] at this
        exact this
      rw [validUTF8_skip] at hrest
      simp only
      rw [encodeRune_decodeRune b rest c size hdec hok, toValidUTF8_skip,
        ih (rest.drop (size - 1)) (by rw [List.length_drop]; simp at hs; omega) hrest]
      obtain ⟨m, rfl⟩ : ∃ m, size = m + 1 := ⟨size - 1, by omega⟩
      simp

theorem Card.stored_of_validText (c : Card) (h : c.validText) : c.stored = c.untagged := by
  obtain ⟨h1, h2, h3⟩ := h
  simp [Card.stored, Card.untagged, toValidUTF8_valid _ _ (Nat.le_refl _) h1,
    toValidUTF8_valid _ _ (Nat.le_refl _) h2, toValidUTF8_valid _ _ (Nat.le_refl _) h3]

/-! ## The persistence codec -/

/-- C5, as the spec states it, fails: the deck that `Create` builds for the code
`AS` is saved and loaded, and the card comes back without its game-type tag. -/
theorem save_load_loses_tag :
    Create (lit "id") [lit "AS"] = .ret (aceOfSpadesDeck, none)
    ∧ (loadFrom (BeforeSave aceOfSpadesDeck).1).1.Cards
        = [{ Value := lit "ACE", Suit := lit "SPADES", Code := lit "AS", CardType := [] }]
    ∧ (loadFrom (BeforeSave aceOfSpadesDeck).1).1.Cards ≠ aceOfSpadesDeck.Cards := by
  rw [loadFrom_BeforeSave aceOfSpadesDeck (by decide)]
  decide

/-- C5, amended. For cards whose value, suit and code are valid UTF-8 text, saving
and then loading succeeds and yields the same cards in the same order with the
game-type tag blank, hence the very same sequence when the tags were blank;
for the empty sequence this holds on a deck whose stored attribute is empty. -/
theorem save_load_roundtrip (d : Deck) (htext : ∀ c ∈ d.Cards, c.validText)
    (hfresh : d.Cards = [] → d.CardsJSON = []) :
    (BeforeSave d).2 = none
    ∧ (loadFrom (BeforeSave d).1).2 = none
    ∧ (loadFrom (BeforeSave d).1).1.Cards = d.Cards.map Card.untagged
    ∧ ((∀ c ∈ d.Cards, c.CardType = []) → (loadFrom (BeforeSave d).1).1.Cards = d.Cards) := by
  have hmap : d.Cards.map Card.stored = d.Cards.map Card.untagged :=
    List.map_congr_left fun c hc => Card.stored_of_validText c (htext c hc)
  have huntag : (∀ c ∈ d.Cards, c.CardType = []) → d.Cards.map Card.untagged = d.Cards := by
    intro h
    conv_rhs => rw [← List.map_id d.Cards]
    apply List.map_congr_left
    intro c hc
    have := h c hc
    cases c
    simp_all [Card.untagged]
  by_cases hne : d.Cards = []
  · have hJ := hfresh hne
    rw [BeforeSave_empty d hne]
    have hload : loadFrom d = ({ d with Cards := [] }, none) := by
      unfold loadFrom AfterFind
      simp [hJ]
    rw [hload, hne]
    exact ⟨rfl, rfl, rfl, fun _ => rfl⟩
  · rw [loadFrom_BeforeSave d hne, BeforeSave_nonempty d hne]
    refine ⟨rfl, rfl, hmap, fun h => ?_⟩
    show d.Cards.map Card.stored = d.Cards
    rw [hmap, huntag h]

/-- A run of the amended C5 on the deck that `Create` builds for the code `AS`. -/
theorem save_load_roundtrip_witness :
    (BeforeSave aceOfSpadesDeck).2 = none
    ∧ (loadFrom (BeforeSave aceOfSpadesDeck).1).2 = none
    ∧ (loadFrom (BeforeSave aceOfSpadesDeck).1).1.Cards
        = aceOfSpadesDeck.Cards.map Card.untagged
    ∧ ((∀ c ∈ aceOfSpadesDeck.Cards, c.CardType = []) →
        (loadFrom (BeforeSave aceOfSpadesDeck).1).1.Cards = aceOfSpadesDeck.Cards) :=
  save_load_roundtrip aceOfSpadesDeck (by decide) (by decide)

/-- C9. The code does not do what the claim says. The deck of four aces is saved,
loaded and emptied by `Draw(4)`; `BeforeSave` then leaves the stored attribute
as it was, the encoding of the four aces, and the next load finds four cards
in a deck whose `remaining` is `0`. -/
theorem BeforeSave_keeps_stale_encoding :
    drawnOutDeck.Cards = []
    ∧ drawnOutDeck.Remaining = 0
    ∧ BeforeSave drawnOutDeck = (drawnOutDeck, none)
    ∧ (BeforeSave drawnOutDeck).1.CardsJSON = (BeforeSave aceDeck).1.CardsJSON
    ∧ (BeforeSave drawnOutDeck).1.CardsJSON ≠ []
    ∧ (loadFrom (BeforeSave drawnOutDeck).1).1.Cards = aceDeck.Cards
    ∧ (loadFrom (BeforeSave drawnOutDeck).1).1.Remaining = 0 := by
  have hstored : aceDeck.Cards.map Card.stored = aceDeck.Cards := by decide
  have hload := loadFrom_BeforeSave aceDeck (by decide)
  rw [hstored] at hload
  have hdraw : drawnOutDeck =
      { aceDeck with
        Remaining := 0,
        CardsJSON := [91] ++ joinComma (aceDeck.Cards.map encodeCard) ++ [93],
        Cards := [] } := by
    unfold drawnOutDeck
    rw [hload, Draw_ok _ 4 (by decide) (by decide) (by decide)]
    rfl
  have hsave : BeforeSave drawnOutDeck = (drawnOutDeck, none) :=
    BeforeSave_empty _ (by rw [hdraw])
  have hagain : loadFrom drawnOutDeck = ({ aceDeck with
      Remaining := 0,
      CardsJSON := [91] ++ joinComma (aceDeck.Cards.map encodeCard) ++ [93],
      Cards := aceDeck.Cards }, none) := by
    rw [hdraw]
    unfold loadFrom
    rw [AfterFind_marshal _ aceDeck.Cards rfl rfl, hstored]
  rw [hsave, hagain, BeforeSave_nonempty aceDeck (by decide)]
  refine ⟨by rw [hdraw], by rw [hdraw], rfl, by rw [hdraw], ?_, rfl, rfl⟩
  rw [hdraw]
  simp

/-- C10, as stated for every sequence of cards, fails: for the deck that `Create`
builds for the code of the two bytes `0xFF` and `S`, the member `code` of the
stored object is U+FFFD followed by `S`, not the code of the card. -/
theorem BeforeSave_stores_coerced_code :
    Create (lit "id") [[255, 83]] = .ret (rawCodeDeck, none)
    ∧ rawCodeDeck.Cards.map Card.Code = [[255, 83]]
    ∧ parseJson (BeforeSave rawCodeDeck).1.CardsJSON
        = some (.arr [.obj [(lit "value", .str []), (lit "suit", .str (lit "SPADES")),
                            (lit "code", .str [239, 191, 189, 83])]])
    ∧ ([239, 191, 189, 83] : GoString) ≠ [255, 83] := by
  refine ⟨by decide, by decide, ?_, by decide⟩
  rw [BeforeSave_nonempty rawCodeDeck (by decide), parseJson_marshal]
  rfl

/-- C10, amended. On a deck that holds a card, `BeforeSave` succeeds, touches the
stored attribute only, and stores a JSON array with one object for each card,
in the order of the cards; each object has the members `value`, `suit`, `code`
and no other, strings that are the fields of the card made valid UTF-8, the
fields themselves when these are valid UTF-8 text. The game-type tag has no
part in what is stored. -/
theorem BeforeSave_stores_array (d : Deck) (hne : d.Cards ≠ []) :
    (BeforeSave d).2 = none
    ∧ (BeforeSave d).1 = { d with CardsJSON := (BeforeSave d).1.CardsJSON }
    ∧ parseJson (BeforeSave d).1.CardsJSON = some (.arr (d.Cards.map cardObject))
    ∧ (d.Cards.map cardObject).length = d.Cards.length
    ∧ (∀ c : Card, (cardObject c).keys = [lit "value", lit "suit", lit "code"])
    ∧ (∀ c : Card, c.validText →
        cardObject c
          = .obj [(lit "value", .str c.Value), (lit "suit", .str c.Suit),
                  (lit "code", .str c.Code)])
    ∧ (BeforeSave { d with Cards := d.Cards.map Card.untagged }).1.CardsJSON
        = (BeforeSave d).1.CardsJSON
    ∧ (∀ c : Card,
        cardObject c
          = .obj [(lit "value", .str (toValidUTF8 0 c.Value)),
                  (lit "suit", .str (toValidUTF8 0 c.Suit)),
                  (lit "code", .str (toValidUTF8 0 c.Code))]) := by
  have hne2 : d.Cards.map Card.untagged ≠ [] := by simpa using hne
  rw [BeforeSave_nonempty d hne, BeforeSave_nonempty _ hne2]
  refine ⟨rfl, rfl, parseJson_marshal d.Cards, List.length_map _ _, fun c => ?_, fun c hc => ?_, ?_,
    fun c => by simp [cardObject, cardFields_eq]⟩
  · simp [cardObject, cardFields_eq, Json.keys]
  · obtain ⟨h1, h2, h3⟩ := hc
    simp [cardObject, cardFields_eq, toValidUTF8_valid _ _ (Nat.le_refl _) h1,
      toValidUTF8_valid _ _ (Nat.le_refl _) h2, toValidUTF8_valid _ _ (Nat.le_refl _) h3]
  · have henc : ∀ c : Card, encodeCard c.untagged = encodeCard c := fun c => by
      simp [encodeCard, cardFields_eq, Card.untagged]
    simp [List.map_map, Function.comp_def, henc]

/-- A run of the amended C10 on the deck of four aces. -/
theorem BeforeSave_stores_array_witness :
    (BeforeSave aceDeck).2 = none
    ∧ parseJson (BeforeSave aceDeck).1.CardsJSON = some (.arr (aceDeck.Cards.map cardObject))
    ∧ (aceDeck.Cards.map cardObject).length = 4 :=
  have h := BeforeSave_stores_array aceDeck (by decide)
  ⟨h.1, h.2.2.1, h.2.2.2.1⟩

/-! ## Code resolution -/

/-- The slice expressions of `Create` follow the parsing rule of the spec on every code
of two bytes or more. -/
theorem splitCode_eq (code : GoString) (h : 2 ≤ code.length) :
    splitCode code = some (rankToken code, suitToken code) := by
  unfold splitCode goSlice rankToken suitToken
  by_cases h2 : (code.length : Int) ≤ 2
  · have e : code.length = 2 := by omega
    simp [e]
  · have h3 : 3 ≤ code.length := by omega
    have h3i : (3 : Int) ≤ (code.length : Int) := by omega
    have h2i : (2 : Int) ≤ (code.length : Int) := by omega
    have hn : ¬ code.length ≤ 2 := by omega
    simp [h2, h3i, h2i, hn]

/-- A code of fewer than two bytes makes a slice expression of `Create` panic. -/
theorem splitCode_short (code : GoString) (h : code.length < 2) : splitCode code = none := by
  unfold splitCode goSlice
  have h2 : (code.length : Int) ≤ 2 := by omega
  rcases code with _ | ⟨a, _ | ⟨b, r⟩⟩
  · simp
  · simp
  · simp only [List.length_cons] at h
    omega

theorem makeCard_eq (code : GoString) (h : 2 ≤ code.length) :
    makeCard code = .ret (cardOfCode code) := by
  unfold makeCard
  rw [splitCode_eq code h]
  rfl

theorem makeCard_short (code : GoString) (h : code.length < 2) :
    makeCard code = .panic "slice bounds out of range" := by
  unfold makeCard
  rw [splitCode_short code h]

theorem createLoop_eq (L : List GoString) (h : ∀ c ∈ L, 2 ≤ c.length) (acc : List Card) :
    createLoop L acc = .ret (acc ++ L.map cardOfCode) := by
  induction L generalizing acc with
  | nil => simp [createLoop]
  | cons code rest ih =>
    simp only [createLoop, makeCard_eq code (h code (List.mem_cons_self _ _))]
    rw [ih (fun c hc => h c (List.mem_cons_of_mem _ hc))]
    simp

theorem createLoop_short (L : List GoString) (h : ∃ c ∈ L, c.length < 2) (acc : List Card) :
    createLoop L acc = .panic "slice bounds out of range" := by
  induction L generalizing acc with
  | nil => simp at h
  | cons code rest ih =>
    by_cases hc : code.length < 2
    · simp only [createLoop, makeCard_short code hc]
    · simp only [createLoop, makeCard_eq code (by omega)]
      apply ih
      obtain ⟨c, hmem, hlen⟩ := h
      rcases List.mem_cons.mp hmem with rfl | hmem
      · exact absurd hlen hc
      · exact ⟨c, hmem, hlen⟩

/-- What `Create` does on a list of 1 to 52 codes: it returns the deck of the cards
of the codes when every code has two bytes or more, and panics otherwise. -/
theorem Create_of_length_ok (newID : GoString) (L : List GoString)
    (h1 : 1 ≤ L.length) (h52 : L.length ≤ 52) :
    Create newID L =
      if ∀ c ∈ L, 2 ≤ c.length then
        .ret ({ Deck.zero with ID := newID, Cards := L.map cardOfCode,
                               Remaining := ((L.map cardOfCode).length : Int) }, none)
      else .panic "slice bounds out of range" := by
  unfold Create minCardsFrench maxCardsFrench
  rw [if_neg (by omega), if_neg (by omega)]
  by_cases h : ∀ c ∈ L, 2 ≤ c.length
  · rw [if_pos h, createLoop_eq L h]
    simp
  · rw [if_neg h, createLoop_short L (by
      simp only [not_forall] at h
      obtain ⟨c, hc, hlen⟩ := h
      exact ⟨c, hc, by omega⟩)]

/-- C11. The code does not do what the claim says: a code of one byte or of none makes
`Create` panic, alone or among other codes. -/
theorem Create_panics_on_short_code :
    Create (lit "id") [lit "A"] = .panic "slice bounds out of range"
    ∧ Create (lit "id") [[]] = .panic "slice bounds out of range"
    ∧ Create (lit "id") [lit "AS", lit "K", lit "10S"] = .panic "slice bounds out of range" := by
  decide

/-- What of C11 holds: on 1 to 52 codes of two bytes or more, whatever they are,
`Create` returns a deck without an error; each card keeps the code of the
caller, and a token the catalog does not know leaves the field blank. -/
theorem Create_never_fails_on_long_codes (newID : GoString) (L : List GoString)
    (h1 : 1 ≤ L.length) (h52 : L.length ≤ 52) (hlen : ∀ c ∈ L, 2 ≤ c.length) :
    ∃ deck, Create newID L = .ret (deck, none)
      ∧ deck.Cards.map Card.Code = L
      ∧ ∀ card ∈ deck.Cards,
          ((valueNames.lookup (rankToken card.Code) = none → card.Value = [])
            ∧ (suitNames.lookup (suitToken card.Code) = none → card.Suit = [])) := by
  refine ⟨_, by rw [Create_of_length_ok newID L h1 h52, if_pos hlen], ?_, ?_⟩
  · simp [List.map_map, Function.comp_def, cardOfCode]
  · intro card hcard
    obtain ⟨code, _, rfl⟩ := List.mem_map.mp hcard
    constructor
    · intro hnone
      have hn : valueNames.lookup (rankToken code) = none := hnone
      simp [cardOfCode, mapGet, hn]
    · intro hnone
      have hn : suitNames.lookup (suitToken code) = none := hnone
      simp [cardOfCode, mapGet, hn]

theorem standardCodes_mem (r s : GoString × GoString) (hr : r ∈ valueNames)
    (hs : s ∈ suitNames) : r.1 ++ s.1 ∈ standardCodes := by
  unfold standardCodes
  exact List.mem_flatMap.mpr ⟨r, hr, List.mem_map.mpr ⟨s, hs, rfl⟩⟩

/-- The parsing rule and the two tables on the 52 standard codes: the tokens of the
code `r+s` are `r` and `s`, and the tables give their canonical names. -/
theorem standard_tokens :
    ∀ r ∈ valueNames, ∀ s ∈ suitNames,
      rankToken (r.1 ++ s.1) = r.1 ∧ suitToken (r.1 ++ s.1) = s.1
        ∧ mapGet valueNames r.1 = r.2 ∧ mapGet suitNames s.1 = s.2 := by
  decide

/-- C12. `Create` resolves every standard code to the canonical names of the
catalog: on a list of 1 to 52 standard codes the deck holds, position by
position, the card of the code by the parsing rule of the spec, and for a rank
token `r` and a suit token `s` of the tables the card of the code `r+s` has
the value `valueNames[r]` and the suit `suitNames[s]`; the slice expressions of
`Create` are the parsing rule; `AS` gives the ACE of SPADES and `10S` the 10 of
SPADES. -/
theorem Create_resolves_standard_codes :
    (∀ (newID : GoString) (L : List GoString),
        (∀ c ∈ L, c ∈ standardCodes) → 1 ≤ L.length → L.length ≤ 52 →
        ∃ deck, Create newID L = .ret (deck, none) ∧ deck.Cards = L.map cardOfCode)
    ∧ (∀ r ∈ valueNames, ∀ s ∈ suitNames,
        cardOfCode (r.1 ++ s.1)
          = { Code := r.1 ++ s.1, Value := r.2, Suit := s.2, CardType := lit "FRENCH" })
    ∧ (∀ (newID : GoString), ∀ r ∈ valueNames, ∀ s ∈ suitNames,
        Create newID [r.1 ++ s.1]
          = .ret ({ Deck.zero with
                    ID := newID, Remaining := 1,
                    Cards := [{ Code := r.1 ++ s.1, Value := r.2, Suit := s.2,
                                CardType := lit "FRENCH" }] }, none))
    ∧ (∀ code : GoString, 2 ≤ code.length →
        splitCode code = some (rankToken code, suitToken code))
    ∧ cardOfCode (lit "AS")
        = { Code := lit "AS", Value := lit "ACE", Suit := lit "SPADES", CardType := lit "FRENCH" }
    ∧ cardOfCode (lit "10S")
        = { Code := lit "10S", Value := lit "10", Suit := lit "SPADES",
            CardType := lit "FRENCH" } := by
  have hcard : ∀ r ∈ valueNames, ∀ s ∈ suitNames,
      cardOfCode (r.1 ++ s.1)
        = { Code := r.1 ++ s.1, Value := r.2, Suit := s.2, CardType := lit "FRENCH" } := by
    intro r hr s hs
    obtain ⟨h1, h2, h3, h4⟩ := standard_tokens r hr s hs
    simp only [cardOfCode, h1, h2, h3, h4]
  refine ⟨fun newID L hstd h1 h52 => ?_, hcard, fun newID r hr s hs => ?_, splitCode_eq,
    by decide, by decide⟩
  · have hlen : ∀ c ∈ L, 2 ≤ c.length := fun c hc => standardCodes_length c (hstd c hc)
    exact ⟨_, by rw [Create_of_length_ok newID L h1 h52, if_pos hlen], rfl⟩
  · have hlen : ∀ c ∈ [r.1 ++ s.1], 2 ≤ c.length := by
      intro c hc
      rw [List.mem_singleton] at hc
      subst hc
      exact standardCodes_length _ (standardCodes_mem r s hr hs)
    rw [Create_of_length_ok newID _ (by simp) (by simp), if_pos hlen]
    simp only [List.map_cons, List.map_nil, hcard r hr s hs, List.length_singleton]
    rfl

/-- A run of C12: the thirteen spades of the tests, and the code `10S`. -/
theorem Create_resolves_standard_codes_witness :
    (∃ deck, Create (lit "id") spadeCodes = .ret (deck, none)
      ∧ deck.Cards = spadeCodes.map cardOfCode)
    ∧ Create (lit "id") [lit "10S"]
        = .ret ({ Deck.zero with
                  ID := lit "id", Remaining := 1,
                  Cards := [{ Code := lit "10S", Value := lit "10", Suit := lit "SPADES",
                              CardType := lit "FRENCH" }] }, none) :=
  ⟨Create_resolves_standard_codes.1 (lit "id") spadeCodes (by decide) (by decide) (by decide),
    Create_resolves_standard_codes.2.2.1 (lit "id") (lit "10", lit "10") (by decide)
      (lit "S", lit "SPADES") (by decide)⟩

/-! ## The check of the requested codes -/

theorem mapGet_mapSet (m : List (GoString × GoString)) (k v key : GoString) :
    mapGet (mapSet m k v) key = if key = k then v else mapGet m key := by
  unfold mapGet mapSet
  by_cases h : key = k
  · subst h
    simp [List.lookup]
  · have hb : (key == k) = false := by simpa using h
    simp [List.lookup, hb, h]

theorem mapGet_foldl_mapSet (V : List GoString) (m : List (GoString × GoString))
    (key : GoString) :
    mapGet (V.foldl (fun m card => mapSet m card card) m) key
      = if key ∈ V then key else mapGet m key := by
  induction V generalizing m with
  | nil => simp
  | cons c rest ih =>
    rw [List.foldl_cons, ih, mapGet_mapSet]
    by_cases h1 : key ∈ rest
    · simp [h1]
    · by_cases h2 : key = c
      · subst h2
        simp [h1]
      · simp [h1, h2]

/-- The lookup map of `getValidCards` gives a recognized code back and `""` for any other. -/
theorem mapGet_validCardsMap (V : List GoString) (key : GoString) :
    mapGet (validCardsMap V) key = if key ∈ V then key else [] := by
  unfold validCardsMap
  rw [mapGet_foldl_mapSet]
  rfl

theorem getInvalidCards_foldl (codes : List GoString) (m : List (GoString × GoString))
    (acc : List GoString) :
    codes.foldl (fun invalidCards card =>
        if mapGet m card = [] then invalidCards ++ [card] else invalidCards) acc
      = acc ++ codes.filter fun c => decide (mapGet m c = []) := by
  induction codes generalizing acc with
  | nil => simp
  | cons c rest ih =>
    rw [List.foldl_cons, ih]
    by_cases h : mapGet m c = []
    · simp [h]
    · simp [h]

theorem getInvalidCards_eq_filter (codes : List GoString) (m : List (GoString × GoString)) :
    getInvalidCards codes m = codes.filter fun c => decide (mapGet m c = []) := by
  unfold getInvalidCards
  rw [getInvalidCards_foldl]
  simp

/-- The lookup map does not tell the empty code from a code it lacks: when the
empty code is recognized and requested, `getInvalidCards` still reports it. -/
theorem getInvalidCards_reports_empty_code :
    ([] : GoString) ∈ [([] : GoString)]
    ∧ getInvalidCards [[]] (validCardsMap [[]]) = [[]]
    ∧ getInvalidCards [[]] (validCardsMap [[]])
        ≠ [([] : GoString)].filter fun c => decide (c ∉ [([] : GoString)]) := by
  decide

theorem mem_queryCodes (catalog : List Card) (codes : List GoString) (c : GoString) :
    c ∈ queryCodes (lit "FRENCH") codes catalog ↔ c ∈ frenchCodes catalog ∧ c ∈ codes := by
  unfold queryCodes frenchCodes
  simp only [List.mem_map, List.mem_filter, decide_eq_true_eq]
  constructor
  · rintro ⟨card, ⟨hmem, htype, hcode⟩, rfl⟩
    exact ⟨⟨card, ⟨hmem, htype⟩, rfl⟩, hcode⟩
  · rintro ⟨⟨card, ⟨hmem, htype⟩, rfl⟩, hcode⟩
    exact ⟨card, ⟨hmem, htype, hcode⟩, rfl⟩

theorem getInvalidCards_validCardsMap (codes V : List GoString) :
    getInvalidCards codes (validCardsMap V)
      = codes.filter (fun c => decide (c ∉ V ∨ c = [])) := by
  rw [getInvalidCards_eq_filter]
  apply List.filter_congr
  intro c _
  rw [mapGet_validCardsMap]
  by_cases h : c ∈ V
  · simp [h]
  · simp [h]

/-- The invalid codes of a request against the table of cards, when the table holds
no card with an empty code. -/
theorem getInvalidCards_catalog (catalog : List Card) (codes : List GoString)
    (h : ([] : GoString) ∉ frenchCodes catalog) :
    getInvalidCards codes (getValidCards (lit "FRENCH") codes catalog)
      = codes.filter (fun c => decide (c ∉ frenchCodes catalog)) := by
  unfold getValidCards
  rw [getInvalidCards_validCardsMap]
  apply List.filter_congr
  intro c hc
  by_cases hf : c ∈ frenchCodes catalog
  · have hne : c ≠ [] := fun e => h (e ▸ hf)
    simp [mem_queryCodes, hf, hc, hne]
  · simp [mem_queryCodes, hf]

/-- The check of the codes against a table of cards without an empty code. -/
theorem checkCards_catalog (catalog : List Card) (codes : List GoString)
    (h : ([] : GoString) ∉ frenchCodes catalog) :
    checkCards catalog codes =
      if ∀ c ∈ codes, c ∈ frenchCodes catalog then none
      else some (codes.filter (fun c => decide (c ∉ frenchCodes catalog))) := by
  unfold checkCards
  rw [getInvalidCards_catalog catalog codes h]
  by_cases hall : ∀ c ∈ codes, c ∈ frenchCodes catalog
  · have hnil : codes.filter (fun c => decide (c ∉ frenchCodes catalog)) = [] := by
      rw [List.filter_eq_nil_iff]
      intro c hc
      simpa using hall c hc
    rw [if_pos hall, hnil]
    rfl
  · have hne : codes.filter (fun c => decide (c ∉ frenchCodes catalog)) ≠ [] := by
      intro hnil
      apply hall
      rw [List.filter_eq_nil_iff] at hnil
      simpa using hnil
    rw [if_neg hall, if_pos (List.length_pos.mpr hne)]

/-- The answer `invalid cards` of `CreateNewDeck` against a table of cards without an
empty code. -/
theorem CreateNewDeck_invalidCards (catalog : List Card) (newID : GoString) (pick : Nat → Nat)
    (shuffle : Bool) (codes : List GoString) (h : ([] : GoString) ∉ frenchCodes catalog) :
    ((∃ invalid, CreateNewDeck catalog newID pick shuffle (some codes)
          = .invalidCards invalid) ↔ ∃ c ∈ codes, c ∉ frenchCodes catalog)
    ∧ (∀ invalid, CreateNewDeck catalog newID pick shuffle (some codes)
          = .invalidCards invalid →
        invalid = codes.filter (fun c => decide (c ∉ frenchCodes catalog)))
    ∧ ((∀ c ∈ codes, c ∈ frenchCodes catalog) →
        CreateNewDeck catalog newID pick shuffle (some codes)
          = match Create newID codes with
            | .panic msg => .panicked msg
            | .ret (_, some err) => .createError err
            | .ret (deck, none) =>
              .created (BeforeSave (if shuffle then Shuffle pick deck else deck)).1) := by
  unfold CreateNewDeck requestedCodes
  simp only
  rw [checkCards_catalog catalog codes h]
  by_cases hall : ∀ c ∈ codes, c ∈ frenchCodes catalog
  · have hno : ¬ ∃ c ∈ codes, c ∉ frenchCodes catalog := by
      rintro ⟨c, hc, hn⟩
      exact hn (hall c hc)
    rw [if_pos hall]
    dsimp only
    have hnot : ∀ invalid, (match Create newID codes with
        | .panic msg => CreateResponse.panicked msg
        | .ret (_, some err) => .createError err
        | .ret (deck, none) =>
          .created (BeforeSave (if shuffle then Shuffle pick deck else deck)).1)
          ≠ .invalidCards invalid := by
      intro invalid
      rcases Create newID codes with ⟨deck, _ | err⟩ | msg <;> simp
    refine ⟨⟨fun ⟨invalid, hinv⟩ => absurd hinv (hnot invalid), fun hex => absurd hex hno⟩,
      fun invalid hinv => absurd hinv (hnot invalid), fun _ => rfl⟩
  · have hex : ∃ c ∈ codes, c ∉ frenchCodes catalog := by
      simpa using hall
    rw [if_neg hall]
    dsimp only
    refine ⟨⟨fun _ => hex, fun _ => ⟨_, rfl⟩⟩, fun invalid hinv => ?_, fun h => absurd h hall⟩
    simp only [CreateResponse.invalidCards.injEq] at hinv
    exact hinv.symm

/-- C13, as the spec states it, fails: against the seeded table of cards the
request of 53 times `AS` names recognized codes only and passes the check of
the codes, and `CreateNewDeck` still rejects it, with the error of `Create`. -/
theorem CreateNewDeck_rejects_recognized_codes :
    (∀ c ∈ List.replicate 53 (lit "AS"), c ∈ frenchCodes FrenchCardDeck)
    ∧ checkCards FrenchCardDeck (List.replicate 53 (lit "AS")) = none
    ∧ CreateNewDeck FrenchCardDeck (lit "id") (fun i => i) false
          (some (List.replicate 53 (lit "AS")))
        = .createError "too many cards provided" := by
  have hall : ∀ c ∈ List.replicate 53 (lit "AS"), c ∈ frenchCodes FrenchCardDeck := by
    intro c hc
    rw [List.eq_of_mem_replicate hc]
    decide
  have hcheck : checkCards FrenchCardDeck (List.replicate 53 (lit "AS")) = none := by
    unfold checkCards
    rw [getInvalidCards_catalog FrenchCardDeck _ (by decide)]
    have hnil : (List.replicate 53 (lit "AS")).filter
        (fun c => decide (c ∉ frenchCodes FrenchCardDeck)) = [] := by
      rw [List.filter_eq_nil_iff]
      intro c hc
      simpa using hall c hc
    rw [hnil]
    rfl
  refine ⟨hall, hcheck, ?_⟩
  unfold CreateNewDeck requestedCodes
  simp only [hcheck]
  have hc : Create (lit "id") (List.replicate 53 (lit "AS"))
      = .ret (Deck.zero, some "too many cards provided") := by
    unfold Create minCardsFrench maxCardsFrench
    simp
  rw [hc]

/-- C13, amended. For every request and every list `V` of recognized codes,
`getInvalidCards` on the lookup map of `V` returns the requested codes that are
not in `V` or are the empty code, in the order of the request and with
repetitions. When `V` does not hold the empty code these are the requested
codes not in `V`, and none is returned exactly when every requested code is
in `V`. Against a table of cards without an empty code, as the seeded table
is, `CreateNewDeck` answers `invalid cards` exactly when the request names a
code the table lacks, and names those codes; a request of recognized codes
goes on to `Create`, whose own checks decide the answer. -/
theorem getInvalidCards_exact (codes V : List GoString) :
    getInvalidCards codes (validCardsMap V)
        = codes.filter (fun c => decide (c ∉ V ∨ c = []))
    ∧ (([] : GoString) ∉ V →
        getInvalidCards codes (validCardsMap V) = codes.filter (fun c => decide (c ∉ V))
        ∧ (getInvalidCards codes (validCardsMap V) = [] ↔ ∀ c ∈ codes, c ∈ V))
    ∧ (∀ catalog : List Card, ([] : GoString) ∉ frenchCodes catalog →
        (checkCards catalog codes = none ↔ ∀ c ∈ codes, c ∈ frenchCodes catalog)
        ∧ (∀ invalid, checkCards catalog codes = some invalid →
            invalid = codes.filter (fun c => decide (c ∉ frenchCodes catalog))))
    ∧ (∀ (catalog : List Card) (newID : GoString) (pick : Nat → Nat) (shuffle : Bool),
        ([] : GoString) ∉ frenchCodes catalog →
        ((∃ invalid, CreateNewDeck catalog newID pick shuffle (some codes)
              = .invalidCards invalid) ↔ ∃ c ∈ codes, c ∉ frenchCodes catalog)
        ∧ (∀ invalid, CreateNewDeck catalog newID pick shuffle (some codes)
              = .invalidCards invalid →
            invalid = codes.filter (fun c => decide (c ∉ frenchCodes catalog)))
        ∧ ((∀ c ∈ codes, c ∈ frenchCodes catalog) →
            CreateNewDeck catalog newID pick shuffle (some codes)
              = match Create newID codes with
                | .panic msg => .panicked msg
                | .ret (_, some err) => .createError err
                | .ret (deck, none) =>
                  .created (BeforeSave (if shuffle then Shuffle pick deck else deck)).1))
    ∧ ([] : GoString) ∉ frenchCodes FrenchCardDeck := by
  have hmain := getInvalidCards_validCardsMap codes V
  refine ⟨hmain, fun hV => ?_, fun catalog hcat => ?_,
    fun catalog newID pick shuffle hcat => CreateNewDeck_invalidCards catalog newID pick shuffle
      codes hcat, by decide⟩
  · have hfil : codes.filter (fun c => decide (c ∉ V ∨ c = []))
        = codes.filter (fun c => decide (c ∉ V)) := by
      apply List.filter_congr
      intro c _
      by_cases h : c ∈ V
      · have hc : c ≠ [] := fun e => hV (e ▸ h)
        simp [h, hc]
      · simp [h]
    rw [hmain, hfil]
    refine ⟨rfl, ?_⟩
    rw [List.filter_eq_nil_iff]
    simp
  · unfold checkCards
    rw [getInvalidCards_catalog catalog codes hcat]
    by_cases hnil : codes.filter (fun c => decide (c ∉ frenchCodes catalog)) = []
    · have hall : ∀ c ∈ codes, c ∈ frenchCodes catalog := by
        rw [List.filter_eq_nil_iff] at hnil
        simpa using hnil
      rw [hnil]
      simp only [List.length_nil, gt_iff_lt, Nat.lt_irrefl, if_false, true_iff]
      exact ⟨hall, fun invalid h => by simp at h⟩
    · have hpos : (codes.filter (fun c => decide (c ∉ frenchCodes catalog))).length > 0 :=
        List.length_pos.mpr hnil
      rw [if_pos hpos]
      refine ⟨⟨fun h => by simp at h, fun hall => ?_⟩, fun invalid h => ?_⟩
      · exfalso
        apply hnil
        rw [List.filter_eq_nil_iff]
        simpa using hall
      · simp only [Option.some.injEq] at h
        exact h.symm

/-- A run of the amended C13: the request `AS,XX,AS,ZZ` against the recognized codes
`AS`, `KS`. -/
theorem getInvalidCards_exact_witness :
    getInvalidCards [lit "AS", lit "XX", lit "AS", lit "ZZ"] (validCardsMap [lit "AS", lit "KS"])
      = [lit "XX", lit "ZZ"] := by
  have h := (getInvalidCards_exact [lit "AS", lit "XX", lit "AS", lit "ZZ"]
    [lit "AS", lit "KS"]).2.1 (by decide)
  rw [h.1]
  decide

/-! ## What `Shuffle` does to the order -/

theorem swapCards_self (cs : List Card) (i : Nat) : swapCards cs i i = cs := by
  unfold swapCards
  cases h : cs[i]? with
  | none => rfl
  | some a =>
    obtain ⟨hi, rfl⟩ := List.getElem?_eq_some_iff.mp h
    have hset : cs.set i cs[i] = cs := by
      apply List.ext_getElem (by simp)
      intro n h1 h2
      rw [List.getElem_set]
      split
      · next e => subst e; rfl
      · rfl
    simp [hset]

/-- The outcome of the random source that picks `j = i` at every step leaves the
cards where they are. -/
theorem shuffleLoop_id (m : Nat) (cs : List Card) : shuffleLoop (fun i => i) m cs = cs := by
  induction m generalizing cs with
  | zero => rfl
  | succ m ih =>
    have e : (m + 1) % (m + 2) = m + 1 := Nat.mod_eq_of_lt (by omega)
    simp only [shuffleLoop, e, swapCards_self, ih]

/-- The outcome that picks `j = 0` at step `i0` and `j = i` at every other step
swaps the cards at `i0` and `0`, when the loop reaches step `i0`. -/
theorem shuffleLoop_one_swap (i0 m : Nat) (cs : List Card) :
    shuffleLoop (fun k => if k = i0 then 0 else k) m cs
      = if 1 ≤ i0 ∧ i0 ≤ m then swapCards cs i0 0 else cs := by
  induction m generalizing cs with
  | zero =>
    have h : ¬ (1 ≤ i0 ∧ i0 ≤ 0) := by omega
    rw [if_neg h]
    rfl
  | succ m ih =>
    simp only [shuffleLoop]
    by_cases hk : m + 1 = i0
    · subst hk
      rw [if_pos rfl, ih, if_neg (by omega), if_pos (by omega)]
      simp
    · rw [if_neg hk, Nat.mod_eq_of_lt (by omega), swapCards_self, ih]
      by_cases h : 1 ≤ i0 ∧ i0 ≤ m
      · rw [if_pos h, if_pos (by omega)]
      · rw [if_neg h, if_neg (by omega)]

theorem swapCards_head (cs : List Card) (i : Nat) (hi : i < cs.length) (h0 : 0 < i) :
    (swapCards cs i 0)[0]? = cs[i]? := by
  have hlen : 0 < cs.length := by omega
  unfold swapCards
  rw [List.getElem?_eq_getElem hi, List.getElem?_eq_getElem hlen]
  simp only
  rw [List.getElem?_eq_getElem (by simpa using hlen)]
  simp

/-- C14, as the spec states it, fails: the deck of four aces has more than one card,
and with the outcome `j = i` at every step `Shuffle` leaves its codes in the
order they had. -/
theorem Shuffle_can_keep_order :
    aceDeck.Cards.length > 1
    ∧ (Shuffle (fun i => i) aceDeck).Cards.map Card.Code = aceDeck.Cards.map Card.Code := by
  decide

/-- C14, amended. Whether `Shuffle` changes the order depends on the random source:
for every deck one outcome leaves the sequence of cards as it was, and for
every deck in which two cards carry different codes one outcome changes the
sequence of codes. -/
theorem Shuffle_order_depends_on_source (d : Deck) :
    (∃ pick, (Shuffle pick d).Cards = d.Cards)
    ∧ ((∃ a ∈ d.Cards, ∃ b ∈ d.Cards, a.Code ≠ b.Code) →
        ∃ pick, (Shuffle pick d).Cards.map Card.Code ≠ d.Cards.map Card.Code) := by
  refine ⟨⟨fun i => i, shuffleLoop_id _ _⟩, ?_⟩
  rintro ⟨a, ha, b, hb, hab⟩
  -- a position `i0 ≥ 1` whose code differs from the code at position `0`
  have hpos : 0 < d.Cards.length := List.length_pos_of_mem ha
  have hex : ∃ i0, ∃ hi : i0 < d.Cards.length, d.Cards[i0].Code ≠ d.Cards[0].Code := by
    by_cases h : a.Code = d.Cards[0].Code
    · obtain ⟨i, hi, hib⟩ := List.getElem_of_mem hb
      exact ⟨i, hi, by rw [hib, ← h]; exact fun e => hab e.symm⟩
    · obtain ⟨i, hi, hia⟩ := List.getElem_of_mem ha
      exact ⟨i, hi, by rw [hia]; exact h⟩
  obtain ⟨i0, hi, hne⟩ := hex
  have h0 : 0 < i0 := by
    rcases Nat.eq_zero_or_pos i0 with rfl | h
    · exact absurd rfl hne
    · exact h
  refine ⟨fun k => if k = i0 then 0 else k, fun heq => ?_⟩
  have hcards : (Shuffle (fun k => if k = i0 then 0 else k) d).Cards = swapCards d.Cards i0 0 := by
    show shuffleLoop _ (d.Cards.length - 1) d.Cards = _
    rw [shuffleLoop_one_swap, if_pos (by omega)]
  rw [hcards] at heq
  have h1 := congrArg (fun l => l[0]?) heq
  simp only [List.getElem?_map, swapCards_head d.Cards i0 hi h0] at h1
  rw [List.getElem?_eq_getElem hi, List.getElem?_eq_getElem hpos] at h1
  simp only [Option.map_some', Option.some.injEq] at h1
  exact hne h1

/-- A run of the amended C14 on the deck of four aces. -/
theorem Shuffle_order_depends_on_source_witness :
    (∃ pick, (Shuffle pick aceDeck).Cards = aceDeck.Cards)
    ∧ ∃ pick, (Shuffle pick aceDeck).Cards.map Card.Code ≠ aceDeck.Cards.map Card.Code :=
  ⟨(Shuffle_order_depends_on_source aceDeck).1,
    (Shuffle_order_depends_on_source aceDeck).2
      ⟨_, List.mem_cons_self _ _, _, List.mem_cons_of_mem _ (List.mem_cons_self _ _),
        by decide⟩⟩

/-! ## What persistence keeps of a card -/

/-- C15, as stated for every sequence of cards, fails: the deck that `Create` builds
for the code of the two bytes `0xFF` and `S` is saved and read back, and the
code of the card has become U+FFFD followed by `S`. -/
theorem save_load_coerces_code :
    Create (lit "id") [[255, 83]] = .ret (rawCodeDeck, none)
    ∧ (BeforeSave rawCodeDeck).2 = none
    ∧ (AfterFind { Deck.zero with CardsJSON := (BeforeSave rawCodeDeck).1.CardsJSON }).1.Cards
        = [{ Value := [], Suit := lit "SPADES", Code := [239, 191, 189, 83], CardType := [] }]
    ∧ (AfterFind { Deck.zero with
          CardsJSON := (BeforeSave rawCodeDeck).1.CardsJSON }).1.Cards.map Card.Code
        ≠ rawCodeDeck.Cards.map Card.Code := by
  rw [BeforeSave_nonempty rawCodeDeck (by decide), AfterFind_marshal _ rawCodeDeck.Cards rfl rfl]
  decide

/-- C15, amended. For a non-empty sequence of cards whose value, suit and code are
valid UTF-8 text, `BeforeSave` and then `AfterFind` on a fresh deck that holds
only the stored attribute both succeed, and the sequence read back has the
same length and at every position a card with the same value, suit and code
and a blank game-type tag. -/
theorem persistence_keeps_visible_fields (d : Deck) (hne : d.Cards ≠ [])
    (htext : ∀ c ∈ d.Cards, c.validText) :
    (BeforeSave d).2 = none
    ∧ (AfterFind { Deck.zero with CardsJSON := (BeforeSave d).1.CardsJSON }).2 = none
    ∧ (AfterFind { Deck.zero with CardsJSON := (BeforeSave d).1.CardsJSON }).1.Cards.length
        = d.Cards.length
    ∧ ∀ (i : Nat) (c : Card), d.Cards[i]? = some c →
        ∃ c', (AfterFind { Deck.zero with
                  CardsJSON := (BeforeSave d).1.CardsJSON }).1.Cards[i]? = some c'
          ∧ c'.Value = c.Value ∧ c'.Suit = c.Suit ∧ c'.Code = c.Code ∧ c'.CardType = [] := by
  have hmap : d.Cards.map Card.stored = d.Cards.map Card.untagged :=
    List.map_congr_left fun c hc => Card.stored_of_validText c (htext c hc)
  rw [BeforeSave_nonempty d hne, AfterFind_marshal _ d.Cards rfl rfl, hmap]
  refine ⟨rfl, rfl, by simp, fun i c hc => ⟨c.untagged, ?_, rfl, rfl, rfl, rfl⟩⟩
  simp [List.getElem?_map, hc]

/-- A run of the amended C15 on the deck that `Create` builds for the code `AS`. -/
theorem persistence_keeps_visible_fields_witness :
    (BeforeSave aceOfSpadesDeck).2 = none
    ∧ (AfterFind { Deck.zero with
          CardsJSON := (BeforeSave aceOfSpadesDeck).1.CardsJSON }).2 = none
    ∧ (AfterFind { Deck.zero with
          CardsJSON := (BeforeSave aceOfSpadesDeck).1.CardsJSON }).1.Cards.length = 1 :=
  have h := persistence_keeps_visible_fields aceOfSpadesDeck (by decide) (by decide)
  ⟨h.1, h.2.1, h.2.2.1⟩

end DeckModel

